import Mathlib

/-!
Verification development for the commit-analyzer repository.

Text is modelled as `List Char` (JavaScript strings, indexed by code unit;
all inputs in this development are plain ASCII/BMP text, where code units
and scalar values coincide).  JavaScript exceptions are modelled with
`Except String`, `null`/absent results with `Option`.
-/

namespace CommitAnalyzer

theorem dropWhile_length_le {α : Type} (p : α → Bool) (l : List α) :
    (l.dropWhile p).length ≤ l.length := by
  induction l with
  | nil => simp [List.dropWhile]
  | cons c r ih =>
    by_cases h : p c
    · simp [List.dropWhile, h]
      omega
    · simp [List.dropWhile, h]

/-- Characters matched by JavaScript's `\s` regex class and by
`String.prototype.trim` (restricted to the ASCII range used here). -/
def jsWhitespace (c : Char) : Bool :=
  c = ' ' || c = '\t' || c = '\n' || c = '\r' || c = '\x0b' || c = '\x0c'

/-- `String.prototype.trim`: strip leading and trailing whitespace. -/
def jsTrim (s : List Char) : List Char :=
  (s.dropWhile jsWhitespace).reverse.dropWhile jsWhitespace |>.reverse

/-- Index of the first occurrence of `pat` in `text`
(JavaScript `String.prototype.indexOf`, result `none` for `-1`). -/
def idxOf (pat : List Char) : List Char → Option Nat
  | [] => if pat.isEmpty then some 0 else none
  | c :: rest =>
    if pat.isPrefixOf (c :: rest) then some 0
    else (idxOf pat rest).map (· + 1)

/-- Whether `pat` occurs as a contiguous substring of `text`. -/
def occursIn (pat text : List Char) : Bool :=
  (idxOf pat text).isSome

/-- Number of (possibly overlapping) occurrences of a nonempty `pat` in `text`,
counting one per starting position. -/
def countOccur (pat : List Char) : List Char → Nat
  | [] => 0
  | c :: rest =>
    (if pat.isPrefixOf (c :: rest) then 1 else 0) + countOccur pat rest

/-- Lowercasing of the ASCII characters used by the adapters
(JavaScript `toLowerCase` on the relevant inputs). -/
def asciiLower (c : Char) : Char :=
  if 'A' ≤ c && c ≤ 'Z' then Char.ofNat (c.toNat + 32) else c

def lowerStr (s : List Char) : List Char := s.map asciiLower

/-! ## Work-item identifier: `CommitHash` (src/domain/value-objects/CommitHash.ts) -/

/-- Hexadecimal character, case-insensitive (`/^[a-f0-9]+$/i`). -/
def isHexDigitCI (c : Char) : Bool :=
  ('0' ≤ c && c ≤ '9') || ('a' ≤ c && c ≤ 'f') || ('A' ≤ c && c ≤ 'F')

/-- The validation enforced by `CommitHash.create`: non-empty, length 4–40,
hexadecimal characters only. -/
def validCommitHash (s : List Char) : Bool :=
  decide (4 ≤ s.length) && decide (s.length ≤ 40) && s.all isHexDigitCI

/-- Value object for a Git commit hash.  The constructor is private in the
source; every value is produced by `create`, so validity is an invariant. -/
structure CommitHash where
  value : List Char
  valid : validCommitHash value = true
deriving DecidableEq

/-- `CommitHash.create`: the three checks of the source, in order. -/
def CommitHash.create (hash : List Char) : Except String CommitHash :=
  if h0 : hash.isEmpty then .error "Commit hash cannot be empty"
  else if h1 : hash.length < 4 ∨ 40 < hash.length then
    .error "Invalid commit hash length"
  else if h2 : hash.all isHexDigitCI then
    .ok ⟨hash, by
      simp [validCommitHash, h2]
      omega⟩
  else .error "Commit hash must contain only hexadecimal characters"

def CommitHash.getValue (h : CommitHash) : List Char := h.value

def CommitHash.equalsFn (a b : CommitHash) : Bool := a.value == b.value

/-! ## Category (domain/value-objects/Category) -/

/-- The closed category enumeration. -/
def validCategories : List (List Char) :=
  ["tweak".toList, "feature".toList, "process".toList]

structure Category where
  value : List Char
  valid : value ∈ validCategories
deriving DecidableEq

/-- `Category.create`: reject empty, lowercase + trim, check membership. -/
def Category.create (category : List Char) : Except String Category :=
  if category.isEmpty then .error "Category cannot be empty"
  else
    let normalized := jsTrim (lowerStr category)
    if h : normalized ∈ validCategories then .ok ⟨normalized, h⟩
    else .error "Invalid category"

def Category.getValue (c : Category) : List Char := c.value

/-! ## Analysis entity (domain/entities/Analysis) -/

structure Analysis where
  category : Category
  summary : List Char
  description : List Char
deriving DecidableEq

/-- The `Analysis` constructor with its four validation checks, in source
order: non-blank summary, non-blank description, summary at most 80
characters, description at least 10 characters. -/
def Analysis.create (category : Category) (summary description : List Char) :
    Except String Analysis :=
  if (jsTrim summary).isEmpty then .error "Summary cannot be empty"
  else if (jsTrim description).isEmpty then .error "Description cannot be empty"
  else if 80 < summary.length then .error "Summary cannot exceed 80 characters"
  else if description.length < 10 then
    .error "Description must be at least 10 characters"
  else .ok ⟨category, summary, description⟩

/-! ## Commit entity (src/1.domain/commit.ts)

Dates are modelled by their JavaScript time value (milliseconds since the
epoch, an integer for every date produced or stored by this program). -/

structure Commit where
  hash : CommitHash
  message : List Char
  date : Int
  diff : List Char
deriving DecidableEq

/-- The `Commit` constructor checks, in source order: non-blank message,
date present (a `Date` object is always truthy, so in this model the check
always passes), non-empty diff. -/
def Commit.create (hash : CommitHash) (message : List Char) (date : Int)
    (diff : List Char) : Except String Commit :=
  if message.isEmpty || (jsTrim message).isEmpty then
    .error "Commit message cannot be empty"
  else if diff.isEmpty then .error "Commit diff is required"
  else .ok ⟨hash, message, date, diff⟩

/-- `Date.prototype.getFullYear` in UTC: the proleptic-Gregorian year of an
epoch-millisecond time value (Howard Hinnant's `civil_from_days`). -/
def yearOfEpochMs (t : Int) : Int :=
  let z := t.fdiv 86400000 + 719468
  let era := z.fdiv 146097
  let doe := (z - era * 146097).toNat
  let yoe := (doe - doe / 1460 + doe / 36524 - doe / 146096) / 365
  let y := (yoe : Int) + era * 400
  let doy := doe - (365 * yoe + yoe / 4 - yoe / 100)
  let mp := (5 * doy + 2) / 153
  if mp < 10 then y + 1 else y

def Commit.getYear (c : Commit) : Int := yearOfEpochMs c.date

structure AnalyzedCommit where
  commit : Commit
  analysis : Analysis
deriving DecidableEq

def AnalyzedCommit.getHash (a : AnalyzedCommit) : CommitHash := a.commit.hash

/-! ## JSON values and the checkpoint wire format

`JSON.stringify`/`JSON.parse` of the checkpoint file round-trip a JSON
value exactly, so the durable store is modelled at the level of JSON
values; a separate `notJson` case stands for stored text that
`JSON.parse` rejects. -/

inductive Json where
  | null
  | bool (b : Bool)
  | num (n : Int)
  | str (s : List Char)
  | arr (elems : List Json)
  | obj (fields : List (List Char × Json))

/-- Object property lookup; objects built by `JSON.parse` keep the last of
duplicate keys. -/
def lookupField (fields : List (List Char × Json)) (key : List Char) : Option Json :=
  (fields.reverse.find? (fun f => f.1 == key)).map (·.2)

/-- JavaScript property read `value[key]`: `none` stands for `undefined`;
reading a property of `null` throws a `TypeError`. -/
def Json.getField : Json → List Char → Except String (Option Json)
  | .null, _ => .error "TypeError: cannot read properties of null"
  | .obj fields, key => .ok (lookupField fields key)
  | _, _ => .ok none

def Json.isArr : Json → Bool
  | .arr _ => true
  | _ => false

/-- Decimal digits of a natural number, most significant first (the digit
part of the runtime's number/date rendering); fuel-structured so that it
reduces definitionally (`n + 1` fuel always suffices). -/
def encodeNatAux : Nat → Nat → List Char
  | 0, _ => []
  | fuel + 1, n =>
    if n < 10 then [Char.ofNat (48 + n)]
    else encodeNatAux fuel (n / 10) ++ [Char.ofNat (48 + n % 10)]

def encodeNat (n : Nat) : List Char := encodeNatAux (n + 1) n

/-- Models `Date.prototype.toISOString`: the runtime renders the time value
as an ISO-8601 string, an injective encoding of the integer time value.
The encoding is modelled by the decimal rendering of that integer. -/
def dateToISO (t : Int) : List Char :=
  if t < 0 then '-' :: encodeNat (-t).toNat else encodeNat t.toNat

def decodeNat (s : List Char) : Nat :=
  s.foldl (fun acc c => acc * 10 + (c.toNat - 48)) 0

/-- Models `new Date(string)` on the strings produced by `dateToISO`
(never throws; an unparseable string yields an invalid date, collapsed
here to time value 0). -/
def dateFromISO (s : List Char) : Int :=
  match s with
  | '-' :: rest => -(decodeNat rest : Int)
  | _ => decodeNat s

/-! ## Checkpoint store: `JSONProgressTracker`
(src/src/4.infrastructure/json-progress-tracker.ts) -/

structure ProgressState where
  totalCommits : List CommitHash
  processedCommits : List CommitHash
  analyzedCommits : List AnalyzedCommit
  lastProcessedIndex : Int
  startTime : Int
  outputFile : List Char
deriving DecidableEq

/-- One entry of the serialized `analyzedCommits` array. -/
def serializeAnalyzedCommit (c : AnalyzedCommit) : Json :=
  .obj [
    ("hash".toList, .str c.commit.hash.getValue),
    ("message".toList, .str c.commit.message),
    ("date".toList, .str (dateToISO c.commit.date)),
    ("year".toList, .num c.commit.getYear),
    ("category".toList, .str c.analysis.category.getValue),
    ("summary".toList, .str c.analysis.summary),
    ("description".toList, .str c.analysis.description)]

def serializeProgressState (state : ProgressState) : Json :=
  .obj [
    ("totalCommits".toList, .arr (state.totalCommits.map (.str ·.getValue))),
    ("processedCommits".toList,
      .arr (state.processedCommits.map (.str ·.getValue))),
    ("analyzedCommits".toList,
      .arr (state.analyzedCommits.map serializeAnalyzedCommit)),
    ("lastProcessedIndex".toList, .num state.lastProcessedIndex),
    ("startTime".toList, .str (dateToISO state.startTime)),
    ("outputFile".toList, .str state.outputFile)]

/-- `validateProgressData`: the five strict shape checks, in source order. -/
def validateProgressData (data : Json) : Except String Unit := do
  let tc ← data.getField "totalCommits".toList
  if !(tc.getD .null).isArr then
    throw "Invalid progress data: totalCommits must be an array"
  let pc ← data.getField "processedCommits".toList
  if !(pc.getD .null).isArr then
    throw "Invalid progress data: processedCommits must be an array"
  let li ← data.getField "lastProcessedIndex".toList
  match li with
  | some (.num _) => pure ()
  | _ => throw "Invalid progress data: lastProcessedIndex must be a number"
  let st ← data.getField "startTime".toList
  match st with
  | some (.str _) => pure ()
  | _ => throw "Invalid progress data: startTime must be a string"
  let of ← data.getField "outputFile".toList
  match of with
  | some (.str _) => pure ()
  | _ => throw "Invalid progress data: outputFile must be a string"

/-- `CommitHash.create` applied to a deserialized JSON value: a missing or
non-string value fails the `!hash || typeof hash !== "string"` check. -/
def CommitHash.createOfJson (v : Json) : Except String CommitHash :=
  match v with
  | .str s => CommitHash.create s
  | _ => .error "Commit hash cannot be empty"

/-- `Category.create` applied to a deserialized JSON value. -/
def Category.createOfJson (v : Option Json) : Except String Category :=
  match v with
  | some (.str s) => Category.create s
  | _ => .error "Category cannot be empty"

/-- A string-typed field read back from JSON, as consumed by the entity
constructors (`item.message as string` and the like): a missing or
falsy value fails the constructor's truthiness check with the given
message, and a truthy non-string fails when a string method is invoked
on it. -/
def jsonStringField (v : Option Json) (emptyMsg : String) :
    Except String (List Char) :=
  match v with
  | some (.str s) => .ok s
  | some (.num n) => if n = 0 then .error emptyMsg else .error "TypeError"
  | some (.bool b) => if b then .error "TypeError" else .error emptyMsg
  | some (.arr _) | some (.obj _) => .error "TypeError"
  | some .null | none => .error emptyMsg

/-- `new Date(item.date as string)` (never throws). -/
def jsonDateField (v : Option Json) : Int :=
  match v with
  | some (.str s) => dateFromISO s
  | _ => 0

/-- `deserializeAnalyzedCommits`: rebuild each `AnalyzedCommit`, passing an
empty string for the diff that the checkpoint does not store.  (At runtime
the source additionally passes the constructor arguments positionally to a
params-object constructor; with either calling convention the `Commit`
constructor throws for these arguments.) -/
def deserializeAnalyzedCommits (data : Json) : Except String (List AnalyzedCommit) :=
  if !data.isArr then .ok []
  else match data with
    | .arr items => items.mapM (fun item => do
        let hv ← item.getField "hash".toList
        let hash ← CommitHash.createOfJson (hv.getD .null)
        let mv ← item.getField "message".toList
        let message ← jsonStringField mv "Commit message cannot be empty"
        let dv ← item.getField "date".toList
        let commit ← Commit.create hash message (jsonDateField dv) []
        let cv ← item.getField "category".toList
        let category ← Category.createOfJson cv
        let sv ← item.getField "summary".toList
        let summary ← jsonStringField sv "Summary cannot be empty"
        let dsv ← item.getField "description".toList
        let description ← jsonStringField dsv "Description cannot be empty"
        let analysis ← Analysis.create category summary description
        pure (⟨commit, analysis⟩ : AnalyzedCommit))
    | _ => .ok []

/-- `deserializeProgressState`: strict validation, then field-by-field
reconstruction. -/
def deserializeProgressState (data : Json) : Except String ProgressState := do
  validateProgressData data
  let tc ← data.getField "totalCommits".toList
  let totalCommits ← match tc with
    | some (.arr xs) => xs.mapM CommitHash.createOfJson
    | _ => throw "Invalid progress data: totalCommits must be an array"
  let pc ← data.getField "processedCommits".toList
  let processedCommits ← match pc with
    | some (.arr xs) => xs.mapM CommitHash.createOfJson
    | _ => throw "Invalid progress data: processedCommits must be an array"
  let ac ← data.getField "analyzedCommits".toList
  let analyzedCommits ← deserializeAnalyzedCommits (ac.getD .null)
  let li ← data.getField "lastProcessedIndex".toList
  let lastProcessedIndex ← match li with
    | some (.num n) => pure n
    | _ => throw "Invalid progress data: lastProcessedIndex must be a number"
  let st ← data.getField "startTime".toList
  let startTime := jsonDateField st
  let of ← data.getField "outputFile".toList
  let outputFile ← match of with
    | some (.str s) => pure s
    | _ => throw "Invalid progress data: outputFile must be a string"
  pure ⟨totalCommits, processedCommits, analyzedCommits, lastProcessedIndex,
    startTime, outputFile⟩

/-- The durable checkpoint file: absent, present but rejected by
`JSON.parse`, or a stored JSON value. -/
inductive FileContent where
  | absent
  | notJson
  | json (j : Json)

/-- `saveProgress`: overwrite the checkpoint with the full serialization. -/
def saveProgress (state : ProgressState) : FileContent :=
  .json (serializeProgressState state)

/-- `loadProgress`: `null` when no checkpoint exists; parse and deserialize
inside a `try`/`catch` that logs and returns `null` on any failure. -/
def loadProgress (content : FileContent) : Option ProgressState :=
  match content with
  | .absent => none
  | .notJson => none
  | .json j =>
    match deserializeProgressState j with
    | .ok state => some state
    | .error _ => none

/-- `getRemainingCommits`: filter the total list by membership of the
hash value in the processed set. -/
def getRemainingCommits (state : ProgressState) : List CommitHash :=
  state.totalCommits.filter
    (fun h => !(state.processedCommits.map CommitHash.getValue).contains h.getValue)

/-! ## External Analysis Client: `LLMAdapter`
(src/src/4.infrastructure/llm-adapter.ts) -/

/-- The fixed text before the commit message in `buildPrompt`. -/
def promptHeader : List Char :=
  "Analyze this git commit and provide a categorization.\n\nCOMMIT MESSAGE:\n".toList

/-- The separator between message and diff in `buildPrompt`; the substring
`"COMMIT DIFF:"` inside it is the marker `truncatePrompt` searches for. -/
def diffMarker : List Char := "COMMIT DIFF:".toList

/-- The fixed categorization instructions after the diff in `buildPrompt`. -/
def promptInstructions : List Char :=
  ("\n\nBased on the commit message and code changes, categorize this commit as one of:\n- \"tweak\": Minor adjustments, bug fixes, small improvements\n- \"feature\": New functionality, major additions  \n- \"process\": Build system, CI/CD, tooling, configuration changes\n\nIMPORTANT: You must respond with ONLY a valid JSON object in this exact format:\n\n```json\n\x7b\n  \"category\": \"tweak|feature|process\",\n  \"summary\": \"One-line description (max 80 characters)\",\n  \"description\": \"Detailed explanation in 2-3 sentences\"\n\x7d\n```\n\nDo not include any other text outside the JSON code block.").toList

def buildPrompt (commitMessage diff : List Char) : List Char :=
  promptHeader ++ commitMessage ++ "\n\n".toList ++ diffMarker ++ "\n".toList
    ++ diff ++ promptInstructions

/-- The shortened reminder `truncatePrompt` appends after the truncation
notice. -/
def truncationStub : List Char :=
  "\n\nBased on the commit message and code changes, categorize this commit...".toList

def truncationNoticePrefix : List Char :=
  "\n\n[DIFF TRUNCATED - Original length: ".toList

/-- `afterDiffHeader.indexOf("\n") + 1` (JavaScript `indexOf` returns `-1`
when absent, so the sum is then `0`). -/
def jsIndexOfPlusOne (pat s : List Char) : Nat :=
  match idxOf pat s with
  | some i => i + 1
  | none => 0

/-- The truncation body once the marker has been located at
`diffStartIndex`. -/
def truncateAt (maxLength : Nat) (prompt : List Char) (diffStartIndex : Nat) :
    List Char :=
  let beforeDiff := prompt.take diffStartIndex
  let afterDiffHeader := prompt.drop diffStartIndex
  let diffHeaderEnd := jsIndexOfPlusOne ['\n'] afterDiffHeader
  let diffHeader := afterDiffHeader.take diffHeaderEnd
  let diffContent := afterDiffHeader.drop diffHeaderEnd
  let overhead : Int := ((beforeDiff.length + diffHeader.length + 500 : Nat) : Int)
  let maxDiffLength : Int := max 1000 ((maxLength : Int) - overhead)
  if maxDiffLength < (diffContent.length : Int) then
    beforeDiff ++ diffHeader ++ diffContent.take maxDiffLength.toNat
      ++ (truncationNoticePrefix ++ encodeNat diffContent.length
          ++ " characters]".toList)
      ++ truncationStub
  else prompt

/-- `truncatePrompt`, parameterized by the provider's maximum prompt length
(`getMaxPromptLength`, environment-configurable, Claude default 100000). -/
def truncatePrompt (maxLength : Nat) (prompt : List Char) : List Char :=
  if prompt.length ≤ maxLength then prompt
  else
    match idxOf diffMarker prompt with
    | none => prompt
    | some diffStartIndex => truncateAt maxLength prompt diffStartIndex

/-- The diff-space budget `maxDiffLength` computed by `truncateAt` when the
pre-diff portion has length `preLen`. -/
def truncBudget (maxLength preLen : Nat) : Int :=
  max 1000 ((maxLength : Int) - ((preLen + 13 + 500 : Nat) : Int))

/-! ### Fenced JSON block extraction

The regex `/` ```json\s*([\s\S]*?)\s*``` `/` finds the first occurrence of
the opening fence that is followed by a closing fence; its capture, after
the surrounding `\s*` and the subsequent `.trim()`, is the trimmed text
between the fences. -/

def openFence : List Char := "```json".toList
def closeFence : List Char := "```".toList

def extractJsonBlock (s : List Char) : Option (List Char) :=
  match idxOf openFence s with
  | none => none
  | some i =>
    let after := (s.drop i).drop openFence.length
    match idxOf closeFence after with
    | none => none
    | some q => some (jsTrim (after.take q))

/-! ### `JSON.parse`, restricted to this program's needs

Numbers are modelled by their integer part: a fractional or exponent
suffix is consumed per the JSON grammar but its value is collapsed, since
no successful parse path of the adapters reads a non-integer number (a
numeric `category`/`summary`/`description` always ends in a thrown
error). -/

def jsonWs (c : Char) : Bool :=
  c = ' ' || c = '\t' || c = '\n' || c = '\r'

def hexVal (c : Char) : Option Nat :=
  if '0' ≤ c ∧ c ≤ '9' then some (c.toNat - 48)
  else if 'a' ≤ c ∧ c ≤ 'f' then some (c.toNat - 87)
  else if 'A' ≤ c ∧ c ≤ 'F' then some (c.toNat - 55)
  else none

/-- JSON string body, after the opening quote: escape sequences and the
ban on raw control characters. -/
def parseJsonString : List Char → Option (List Char × List Char)
  | [] => none
  | '"' :: rest => some ([], rest)
  | '\\' :: esc =>
    match esc with
    | '"' :: r => (parseJsonString r).map (fun p => ('"' :: p.1, p.2))
    | '\\' :: r => (parseJsonString r).map (fun p => ('\\' :: p.1, p.2))
    | '/' :: r => (parseJsonString r).map (fun p => ('/' :: p.1, p.2))
    | 'b' :: r => (parseJsonString r).map (fun p => ('\x08' :: p.1, p.2))
    | 'f' :: r => (parseJsonString r).map (fun p => ('\x0c' :: p.1, p.2))
    | 'n' :: r => (parseJsonString r).map (fun p => ('\n' :: p.1, p.2))
    | 'r' :: r => (parseJsonString r).map (fun p => ('\r' :: p.1, p.2))
    | 't' :: r => (parseJsonString r).map (fun p => ('\t' :: p.1, p.2))
    | 'u' :: a :: b :: c :: d :: r =>
      match hexVal a, hexVal b, hexVal c, hexVal d with
      | some ha, some hb, some hc, some hd =>
        (parseJsonString r).map
          (fun p => (Char.ofNat (((ha * 16 + hb) * 16 + hc) * 16 + hd) :: p.1, p.2))
      | _, _, _, _ => none
    | _ => none
  | c :: rest =>
    if c.toNat < 32 then none
    else (parseJsonString rest).map (fun p => (c :: p.1, p.2))

def isDigit (c : Char) : Bool := '0' ≤ c && c ≤ '9'

/-- JSON number grammar; the returned value is the signed integer part. -/
def parseJsonNumber (s : List Char) : Option (Int × List Char) :=
  let (neg, s1) := match s with
    | '-' :: r => (true, r)
    | _ => (false, s)
  let intPart : Option (Nat × List Char) :=
    match s1 with
    | '0' :: r => some (0, r)
    | c :: _ =>
      if '1' ≤ c ∧ c ≤ '9' then
        let digs := s1.takeWhile isDigit
        some (decodeNat digs, s1.drop digs.length)
      else none
    | [] => none
  intPart.bind fun (n, r1) =>
    let fracOk : Option (List Char) :=
      match r1 with
      | '.' :: r2 =>
        let digs := r2.takeWhile isDigit
        if digs.isEmpty then none else some (r2.drop digs.length)
      | _ => some r1
    fracOk.bind fun r2 =>
      let expOk : Option (List Char) :=
        match r2 with
        | 'e' :: r3 | 'E' :: r3 =>
          let r4 := match r3 with
            | '+' :: r4 => r4
            | '-' :: r4 => r4
            | _ => r3
          let digs := r4.takeWhile isDigit
          if digs.isEmpty then none else some (r4.drop digs.length)
        | _ => some r2
      expOk.map fun r3 => (if neg then -(n : Int) else (n : Int), r3)

mutual

def parseJsonValue : Nat → List Char → Option (Json × List Char)
  | 0, _ => none
  | fuel + 1, s =>
    let s := s.dropWhile jsonWs
    match s with
    | '"' :: r => (parseJsonString r).map (fun p => (.str p.1, p.2))
    | '[' :: r =>
      let r := r.dropWhile jsonWs
      match r with
      | ']' :: rest => some (.arr [], rest)
      | _ => (parseArrElems fuel r).map (fun p => (.arr p.1, p.2))
    | '{' :: r =>
      let r := r.dropWhile jsonWs
      match r with
      | '}' :: rest => some (.obj [], rest)
      | _ => (parseObjFields fuel r).map (fun p => (.obj p.1, p.2))
    | 'n' :: 'u' :: 'l' :: 'l' :: r => some (.null, r)
    | 't' :: 'r' :: 'u' :: 'e' :: r => some (.bool true, r)
    | 'f' :: 'a' :: 'l' :: 's' :: 'e' :: r => some (.bool false, r)
    | _ => (parseJsonNumber s).map (fun p => (.num p.1, p.2))

def parseArrElems : Nat → List Char → Option (List Json × List Char)
  | 0, _ => none
  | fuel + 1, s =>
    (parseJsonValue fuel s).bind fun (v, rest) =>
      let rest := rest.dropWhile jsonWs
      match rest with
      | ',' :: r => (parseArrElems fuel r).map (fun p => (v :: p.1, p.2))
      | ']' :: r => some ([v], r)
      | _ => none

def parseObjFields : Nat → List Char → Option (List (List Char × Json) × List Char)
  | 0, _ => none
  | fuel + 1, s =>
    match s.dropWhile jsonWs with
    | '"' :: r =>
      (parseJsonString r).bind fun (key, rest) =>
        match rest.dropWhile jsonWs with
        | ':' :: r2 =>
          (parseJsonValue fuel r2).bind fun (v, rest2) =>
            match rest2.dropWhile jsonWs with
            | ',' :: r3 =>
              (parseObjFields fuel r3).map (fun p => ((key, v) :: p.1, p.2))
            | '}' :: r3 => some ([(key, v)], r3)
            | _ => none
        | _ => none
    | _ => none

end

/-- `JSON.parse`: parse one value and require only whitespace after it. -/
def parseJson (s : List Char) : Option Json :=
  (parseJsonValue (s.length + 1) s).bind fun (v, rest) =>
    if (rest.dropWhile jsonWs).isEmpty then some v else none

/-! ### Tier-1 response parsing: `LLMAdapter.parseResponse` -/

/-- The result record `{ category, summary, description }`.  The source
returns `description` unvalidated, so it stays a JSON value here; both
parsing tiers produce strings for it on their success paths. -/
structure ParsedAnalysis where
  category : List Char
  summary : List Char
  description : Json

/-- JavaScript truthiness of a possibly-undefined JSON value
(`none` = `undefined`). -/
def jsFalsy : Option Json → Bool
  | none | some .null => true
  | some (.str s) => s.isEmpty
  | some (.num n) => n == 0
  | some (.bool b) => !b
  | some (.arr _) | some (.obj _) => false

/-- `isValidCategory`: `["tweak", "feature", "process"].includes(category)`
(strict equality, so only those exact strings pass). -/
def isValidCategory (v : Option Json) : Bool :=
  match v with
  | some (.str c) => validCategories.contains c
  | _ => false

/-- The validation/extraction stage of `LLMAdapter.parseResponse` on the
parsed JSON value: destructure `{category, summary, description}`, validate
the category, check `summary`/`description` truthy, truncate the summary
to 80 characters, return the description unvalidated. -/
def parseParsedJson (parsed : Json) : Except String ParsedAnalysis :=
  match parsed.getField "category".toList with
  | .error e => .error e
  | .ok category =>
    match parsed.getField "summary".toList with
    | .error e => .error e
    | .ok summary =>
      match parsed.getField "description".toList with
      | .error e => .error e
      | .ok description =>
        if !isValidCategory category then .error "Invalid category"
        else if jsFalsy summary || jsFalsy description then
          .error "Missing required fields in response"
        else
          match summary with
          | some (.str s) =>
            .ok ⟨(match category with | some (.str c) => c | _ => []),
              s.take 80, description.getD .null⟩
          | _ => .error "TypeError: summary.substring is not a function"

/-- `JSON.parse` of the extracted block followed by validation. -/
def parseBlockContent (content : List Char) : Except String ParsedAnalysis :=
  match parseJson (jsTrim content) with
  | none => .error "Unexpected token in JSON"
  | some parsed => parseParsedJson parsed

/-- The `try` body of `LLMAdapter.parseResponse`: extract the fenced JSON
block, then parse and validate it. -/
def parseResponseInner (response : List Char) : Except String ParsedAnalysis :=
  match extractJsonBlock response with
  | none => .error "No JSON block found in response"
  | some content => parseBlockContent content

/-- `LLMAdapter.parseResponse`: the `catch` rethrows with a fixed prefix. -/
def parseResponse (response : List Char) : Except String ParsedAnalysis :=
  match parseResponseInner response with
  | .ok r => .ok r
  | .error e => .error ("Failed to parse LLM response: " ++ e)

/-! ### Tier-2 parsing: `ClaudeLLMAdapter.parseClaudeNaturalLanguageResponse`

Each regex of the source is implemented as a scan for the first position
where the pattern matches, with the pattern's own greedy/optional pieces
expanded by hand. -/

/-- First position at which the positional matcher `f` succeeds. -/
def firstMatch {α : Type} (f : List Char → Option α) : List Char → Option α
  | [] => f []
  | c :: r => (f (c :: r)).orElse (fun _ => firstMatch f r)

/-- Case-insensitive literal match, returning the rest of the input. -/
def matchCI (lit s : List Char) : Option (List Char) :=
  if lowerStr (s.take lit.length) == lit then some (s.drop lit.length) else none

/-- `\*\*?`: one star, optionally two (greedy, with backtracking into the
continuation). -/
def matchStars12 {α : Type} (s : List Char) (k : List Char → Option α) : Option α :=
  match s with
  | '*' :: '*' :: r => (k r).orElse (fun _ => k ('*' :: r))
  | '*' :: r => k r
  | _ => none

/-- `:?` (greedy, with backtracking into the continuation). -/
def matchColonOpt {α : Type} (s : List Char) (k : List Char → Option α) : Option α :=
  match s with
  | ':' :: r => (k r).orElse (fun _ => k (':' :: r))
  | _ => k s

/-- `(tweak|feature|process)` case-insensitively; the group is lowercased
by the caller, so the canonical lowercase word is returned. -/
def matchCatWord (s : List Char) : Option (List Char × List Char) :=
  (matchCI "tweak".toList s).map (fun r => ("tweak".toList, r)) |>.orElse fun _ =>
  (matchCI "feature".toList s).map (fun r => ("feature".toList, r)) |>.orElse fun _ =>
  (matchCI "process".toList s).map (fun r => ("process".toList, r))

/-- `/\*\*?Category\*\*?:?\s*(tweak|feature|process)/i` at one position. -/
def tryCat1 (s : List Char) : Option (List Char) :=
  matchStars12 s fun r1 =>
    (matchCI "category".toList r1).bind fun r2 =>
      matchStars12 r2 fun r3 =>
        matchColonOpt r3 fun r4 =>
          (matchCatWord (r4.dropWhile jsWhitespace)).map (·.1)

/-- `/Category:\s*(tweak|feature|process)/i` at one position. -/
def tryCat2 (s : List Char) : Option (List Char) :=
  (matchCI "category:".toList s).bind fun r =>
    (matchCatWord (r.dropWhile jsWhitespace)).map (·.1)

/-- `/\*\*(tweak|feature|process)\*\*/i` at one position. -/
def tryCat3 (s : List Char) : Option (List Char) :=
  match s with
  | '*' :: '*' :: r =>
    (matchCatWord r).bind fun (w, rest) =>
      match rest with
      | '*' :: '*' :: _ => some w
      | _ => none
  | _ => none

/-- `/(tweak|feature|process)\s*commit/i` at one position. -/
def tryCat4 (s : List Char) : Option (List Char) :=
  (matchCatWord s).bind fun (w, rest) =>
    (matchCI "commit".toList (rest.dropWhile jsWhitespace)).map (fun _ => w)

/-- `/should be categorized as[:\s]*\*\*?(tweak|feature|process)/i` at one
position. -/
def tryCat5 (s : List Char) : Option (List Char) :=
  (matchCI "should be categorized as".toList s).bind fun r =>
    let r := r.dropWhile (fun c => c = ':' || jsWhitespace c)
    matchStars12 r fun r2 => (matchCatWord r2).map (·.1)

/-- The five category regexes, tried in source order over the whole
response. -/
def categoryMatch (response : List Char) : Option (List Char) :=
  (firstMatch tryCat1 response).orElse fun _ =>
  (firstMatch tryCat2 response).orElse fun _ =>
  (firstMatch tryCat3 response).orElse fun _ =>
  (firstMatch tryCat4 response).orElse fun _ =>
  firstMatch tryCat5 response

/-- `\s*([^\n\r]+)` followed by the caller's `.trim()`: the first line of
text after the whitespace, trimmed.  A capture consisting of backtracked
whitespace (possible when only whitespace remains) trims to the empty
string, which the caller treats as absent. -/
def lineCaptureTail (r : List Char) : Option (List Char) :=
  let r' := r.dropWhile jsWhitespace
  if r'.isEmpty then
    if r.any (fun c => c ≠ '\n' ∧ c ≠ '\r') then some [] else none
  else some (jsTrim (r'.takeWhile (fun c => c ≠ '\n' ∧ c ≠ '\r')))

/-- `/\*\*?Summary\*\*?:?\s*([^\n\r]+)/i` at one position. -/
def trySummary1 (s : List Char) : Option (List Char) :=
  matchStars12 s fun r1 =>
    (matchCI "summary".toList r1).bind fun r2 =>
      matchStars12 r2 fun r3 =>
        matchColonOpt r3 lineCaptureTail

/-- `/Summary:\s*([^\n\r]+)/i` at one position. -/
def trySummary2 (s : List Char) : Option (List Char) :=
  (matchCI "summary:".toList s).bind lineCaptureTail

def summaryMatch (response : List Char) : Option (List Char) :=
  (firstMatch trySummary1 response).orElse fun _ =>
  firstMatch trySummary2 response

/-- The lookahead `(?=\n\n|\n\*\*|\n---|\n#|$)` of the description
regexes. -/
def descLookahead (s : List Char) : Bool :=
  s.isEmpty || "\n\n".toList.isPrefixOf s || "\n**".toList.isPrefixOf s
    || "\n---".toList.isPrefixOf s || "\n#".toList.isPrefixOf s

/-- The lazy capture `([\s\S]+?)` up to the first lookahead position
(at least one character). -/
def descCaptureAux : List Char → List Char
  | [] => []
  | c :: rest =>
    if descLookahead (c :: rest) then [] else c :: descCaptureAux rest

/-- `\s*([\s\S]+?)(?=...)` followed by `.trim()`. -/
def descCaptureTail (r : List Char) : Option (List Char) :=
  let r' := r.dropWhile jsWhitespace
  match r' with
  | [] => if r.isEmpty then none else some []
  | c :: rest => some (jsTrim (c :: descCaptureAux rest))

/-- `/\*\*?Description\*\*?:?\s*([\s\S]+?)(?=\n\n|\n\*\*|\n---|\n#|$)/i`
at one position. -/
def tryDesc1 (s : List Char) : Option (List Char) :=
  matchStars12 s fun r1 =>
    (matchCI "description".toList r1).bind fun r2 =>
      matchStars12 r2 fun r3 =>
        matchColonOpt r3 descCaptureTail

/-- `/Description:\s*([\s\S]+?)(?=\n\n|\n\*\*|\n---|\n#|$)/i` at one
position. -/
def tryDesc2 (s : List Char) : Option (List Char) :=
  (matchCI "description:".toList s).bind descCaptureTail

def descMatch (response : List Char) : Option (List Char) :=
  (firstMatch tryDesc1 response).orElse fun _ =>
  firstMatch tryDesc2 response

/-- `response.split("\n")`, via an accumulator for the current segment. -/
def splitLinesAux : List Char → List Char → List (List Char)
  | [], acc => [acc.reverse]
  | c :: rest, acc =>
    if c = '\n' then acc.reverse :: splitLinesAux rest []
    else splitLinesAux rest (c :: acc)

def splitLines (s : List Char) : List (List Char) := splitLinesAux s []

/-- The verb-keyword test of the summary fallback
(`line.includes("refactor") || ...`, case sensitive). -/
def hasVerbKeyword (line : List Char) : Bool :=
  occursIn "refactor".toList line || occursIn "add".toList line
    || occursIn "fix".toList line || occursIn "update".toList line
    || occursIn "implement".toList line

/-- Summary fallback: the first non-blank line containing a verb keyword,
trimmed, else `"Code changes"`. -/
def summaryFallback (response : List Char) : List Char :=
  match ((splitLines response).filter (fun l => !(jsTrim l).isEmpty)).find?
      hasVerbKeyword with
  | some l => jsTrim l
  | none => "Code changes".toList

def isSentencePunct (c : Char) : Bool := c = '.' || c = '!' || c = '?'

/-- `response.split(/[.!?]+/)`: the flag records whether the scanner is
inside a run of separator characters (a run yields one split). -/
def splitSentencesAux : List Char → List Char → Bool → List (List Char)
  | [], acc, _ => [acc.reverse]
  | c :: rest, acc, inRun =>
    if isSentencePunct c then
      if inRun then splitSentencesAux rest acc inRun
      else acc.reverse :: splitSentencesAux rest [] true
    else splitSentencesAux rest (c :: acc) false

def splitSentences (s : List Char) : List (List Char) :=
  splitSentencesAux s [] false

/-- Description fallback: the first split segment whose trimmed length
exceeds 20, trimmed, else `"Commit contains code changes"`. -/
def descriptionFallback (response : List Char) : List Char :=
  match ((splitSentences response).filter
      (fun seg => 20 < (jsTrim seg).length)).head? with
  | some seg => jsTrim seg
  | none => "Commit contains code changes".toList

/-- `.replace(/[*"]/g, "")`. -/
def stripMd (s : List Char) : List Char :=
  s.filter (fun c => c ≠ '*' ∧ c ≠ '"')

/-- `ClaudeLLMAdapter.parseClaudeNaturalLanguageResponse`. -/
def parseClaudeNaturalLanguageResponse (response : List Char) :
    Except String ParsedAnalysis :=
  match categoryMatch response with
  | none => .error "Could not extract valid category from Claude response"
  | some category =>
    let summary0 := (summaryMatch response).getD []
    let summary1 := if summary0.isEmpty then summaryFallback response else summary0
    let description0 := (descMatch response).getD []
    let description1 :=
      if description0.isEmpty then descriptionFallback response else description0
    let summary2 := jsTrim (stripMd (summary1.take 80))
    let description2 := jsTrim (stripMd description1)
    .ok ⟨category,
      (if summary2.isEmpty then "Code changes".toList else summary2),
      .str (if description2.isEmpty then "This commit contains code changes.".toList
        else description2)⟩

/-- `ClaudeLLMAdapter.parseResponse`: strict JSON first, natural-language
fallback when that throws. -/
def parseResponseClaude (response : List Char) : Except String ParsedAnalysis :=
  match parseResponse response with
  | .ok r => .ok r
  | .error _ => parseClaudeNaturalLanguageResponse response

/-! ### The retry loop of `LLMAdapter.analyzeCommit` -/

/-- The retry tunables (`LLM_MAX_RETRIES`, `LLM_INITIAL_RETRY_DELAY`,
`LLM_MAX_RETRY_DELAY`, `LLM_RETRY_MULTIPLIER`; defaults 3, 5000, 30000, 2). -/
structure RetryConfig where
  maxRetries : Nat
  initialDelay : Nat
  maxDelay : Nat
  multiplier : Nat
deriving DecidableEq

def defaultRetryConfig : RetryConfig := ⟨3, 5000, 30000, 2⟩

/-- The delay computed after a failed attempt `attempt`:
`min(INITIAL_RETRY_DELAY * RETRY_MULTIPLIER^(attempt-1), MAX_RETRY_DELAY)`. -/
def backoffDelay (cfg : RetryConfig) (attempt : Nat) : Nat :=
  min (cfg.initialDelay * cfg.multiplier ^ (attempt - 1)) cfg.maxDelay

/-- Outcome of a full `analyzeCommit` run: the result, the list of backoff
delays slept (in order), and how many attempts were made.  `exec` gives
each attempt's `executeModelCommand` outcome; `parse` is the adapter's
`parseResponse`. -/
structure RetryRun where
  result : Except String ParsedAnalysis
  delays : List Nat
  attempts : Nat

/-- The `for` loop of `analyzeCommit`, from attempt number `attempt` with
`remaining` attempts left. -/
def runAttempts (cfg : RetryConfig) (parse : List Char → Except String ParsedAnalysis)
    (exec : Nat → Except String (List Char)) (attempt remaining : Nat) : RetryRun :=
  match remaining with
  | 0 => ⟨.error "Failed to analyze commit: no attempts", [], 0⟩
  | r + 1 =>
    match (exec attempt).bind parse with
    | .ok v => ⟨.ok v, [], 1⟩
    | .error e =>
      if r = 0 then
        ⟨.error ("Failed to analyze commit after " ++ toString cfg.maxRetries
          ++ " attempts: " ++ e), [], 1⟩
      else
        let rest := runAttempts cfg parse exec (attempt + 1) r
        ⟨rest.result, backoffDelay cfg attempt :: rest.delays, rest.attempts + 1⟩

/-- `analyzeCommit` with retry enabled: attempts `1..MAX_RETRIES`. -/
def analyzeCommitRun (cfg : RetryConfig)
    (parse : List Char → Except String ParsedAnalysis)
    (exec : Nat → Except String (List Char)) : RetryRun :=
  runAttempts cfg parse exec 1 cfg.maxRetries

/-! ## Concurrency Limiter: `ConcurrencyManager` (src/src/utils/concurrency.ts)

The manager's callbacks run on a single-threaded event loop, so its
behaviour is a deterministic step function over serialized events: a
`submit` is a call to `execute`, a `complete` is the settlement of a
running task's promise.  `outcome` gives each task's own result (the value
its `fn` resolves with), captured by the `resolve(result)` closure. -/

structure CMState where
  maxConcurrency : Nat
  running : Nat
  queue : List Nat
  started : List Nat
  resolved : List (Nat × Int)
deriving DecidableEq

inductive CMEvent where
  | submit (id : Nat)
  | complete (id : Nat)

def CMState.init (maxConcurrency : Nat) : CMState :=
  ⟨maxConcurrency, 0, [], [], []⟩

/-- One event-loop step.  `submit`: run immediately when below the limit,
else enqueue.  `complete`: record the task's own outcome, decrement the
running count (the `finally` block), then `processQueue` dequeues at most
one waiting task. -/
def CMState.step (outcome : Nat → Int) (s : CMState) : CMEvent → CMState
  | .submit id =>
    if s.running < s.maxConcurrency then
      { s with running := s.running + 1, started := s.started ++ [id] }
    else { s with queue := s.queue ++ [id] }
  | .complete id =>
    let s1 := { s with running := s.running - 1, resolved := s.resolved ++ [(id, outcome id)] }
    match s1.queue with
    | [] => s1
    | next :: rest =>
      if s1.running < s1.maxConcurrency then
        { s1 with queue := rest, running := s1.running + 1, started := s1.started ++ [next] }
      else s1

def CMState.run (outcome : Nat → Int) (s : CMState) : List CMEvent → CMState
  | [] => s
  | e :: es => (s.step outcome e).run outcome es

/-- All intermediate states of a run, initial state included. -/
def CMState.trace (outcome : Nat → Int) (s : CMState) : List CMEvent → List CMState
  | [] => [s]
  | e :: es => s :: (s.step outcome e).trace outcome es

/-! ## Batch Orchestrators (claim C1)

`ItemOutcome` is the oracle for one work item: an invalid hash, a
successful analysis, or an error thrown by the analysis pipeline after the
Analysis Client has exhausted its internal retries. -/

inductive ItemOutcome where
  | invalidHash
  | success (a : ParsedAnalysis)
  | failure (msg : List Char)

inductive SaveTrigger where
  | periodic
  | onFailure
deriving DecidableEq

/-- Observable outcome of an orchestrator run. -/
structure OrchRun where
  processed : List (List Char)
  analyzed : List (List Char × ParsedAnalysis)
  failed : Nat
  dispatched : List (List Char)
  saves : List (SaveTrigger × Nat)
  exported : Option (List (List Char × ParsedAnalysis))
  halted : Bool

/-- `CommitProcessor.processCommits` (src/src/commit-processor.ts): the
sequential loop.  `idx` is the 0-based `index` into `commitsToAnalyze`,
`initialProcessed` the number of already-processed commits handed in on
resume, `total` the length of `commitsToAnalyze`.  On an analysis failure
`handleProcessingError` saves progress, exports the partial results when
any exist, and exits the process. -/
def processCommitsAux (initialProcessed total : Nat) :
    List (List Char × ItemOutcome) → Nat → List (List Char) →
    List (List Char × ParsedAnalysis) → Nat → List (List Char) →
    List (SaveTrigger × Nat) → OrchRun
  | [], _, processed, analyzed, failed, dispatched, saves =>
    ⟨processed, analyzed, failed, dispatched, saves, none, false⟩
  | (hash, outcome) :: rest, idx, processed, analyzed, failed, dispatched, saves =>
    let overallIndex := initialProcessed + idx + 1
    match outcome with
    | .invalidHash =>
      processCommitsAux initialProcessed total rest (idx + 1)
        (processed ++ [hash]) analyzed (failed + 1) dispatched saves
    | .success a =>
      let analyzed' := analyzed ++ [(hash, a)]
      let processed' := processed ++ [hash]
      let saves' :=
        if overallIndex % 10 = 0 ∨ idx = total - 1 then
          saves ++ [(SaveTrigger.periodic, processed'.length)]
        else saves
      processCommitsAux initialProcessed total rest (idx + 1)
        processed' analyzed' failed (dispatched ++ [hash]) saves'
    | .failure _ =>
      let processed' := processed ++ [hash]
      ⟨processed', analyzed, failed + 1, dispatched ++ [hash],
        saves ++ [(SaveTrigger.onFailure, processed'.length)],
        (if analyzed.isEmpty then none else some analyzed), true⟩

def processCommits (initialProcessed : Nat)
    (items : List (List Char × ItemOutcome)) : OrchRun :=
  processCommitsAux initialProcessed items.length items 0 [] [] 0 [] []

/-- `AnalyzeCommitsUseCase.handle`, sequential branch (`batchSize = 1`)
(src/src/2.application/analyze-commits.usecase.ts): a failed item gets a
failure-triggered save and the loop continues; all accumulated successes
are exported at the end. -/
def useCaseHandleAux (interval total : Nat) :
    List (List Char × ItemOutcome) → Nat → List (List Char) →
    List (List Char × ParsedAnalysis) → Nat → List (List Char) →
    List (SaveTrigger × Nat) → OrchRun
  | [], _, processed, analyzed, failed, dispatched, saves =>
    ⟨processed, analyzed, failed, dispatched, saves,
      (if analyzed.isEmpty then none else some analyzed), false⟩
  | (hash, outcome) :: rest, idx, processed, analyzed, failed, dispatched, saves =>
    let currentIndex := idx + 1
    match outcome with
    | .invalidHash =>
      -- invalid hashes are filtered out by `validateCommits` before the
      -- loop; they never reach it
      useCaseHandleAux interval total rest (idx + 1) processed analyzed failed
        dispatched saves
    | .success a =>
      let analyzed' := analyzed ++ [(hash, a)]
      let processed' := processed ++ [hash]
      let saves' :=
        if currentIndex % interval = 0 ∨ currentIndex = total then
          saves ++ [(SaveTrigger.periodic, processed'.length)]
        else saves
      useCaseHandleAux interval total rest (idx + 1) processed' analyzed'
        failed (dispatched ++ [hash]) saves'
    | .failure _ =>
      let processed' := processed ++ [hash]
      useCaseHandleAux interval total rest (idx + 1) processed' analyzed
        (failed + 1) (dispatched ++ [hash])
        (saves ++ [(SaveTrigger.onFailure, processed'.length)])

def useCaseHandle (interval : Nat) (items : List (List Char × ItemOutcome)) :
    OrchRun :=
  useCaseHandleAux interval items.length items 0 [] [] 0 [] []

def ItemOutcome.isFailure : ItemOutcome → Bool
  | .failure _ => true
  | _ => false

def ItemOutcome.isInvalid : ItemOutcome → Bool
  | .invalidHash => true
  | _ => false

/-- The successful analyses of a run prefix, in order. -/
def successesOf (items : List (List Char × ItemOutcome)) :
    List (List Char × ParsedAnalysis) :=
  items.filterMap (fun x => match x.2 with
    | .success a => some (x.1, a)
    | _ => none)

/-- The hashes of the successfully analyzed items, in order. -/
def successHashesOf (items : List (List Char × ItemOutcome)) : List (List Char) :=
  items.filterMap (fun x => match x.2 with
    | .success _ => some x.1
    | _ => none)

/-- Count of failure-triggered checkpoint saves in a run. -/
def failureSaves (r : OrchRun) : Nat :=
  r.saves.countP (fun sv => decide (sv.1 = SaveTrigger.onFailure))

/-- Items of the C1 counterexample run: the second of three items fails. -/
def c1Analysis1 : ParsedAnalysis := ⟨"tweak".toList, "s1".toList, .str "d1".toList⟩

def c1Analysis3 : ParsedAnalysis := ⟨"feature".toList, "s3".toList, .str "d3".toList⟩

def c1Items : List (List Char × ItemOutcome) :=
  [("aaaa".toList, .success c1Analysis1),
   ("bbbb".toList, .failure "transient failure after retries".toList),
   ("cccc".toList, .success c1Analysis3)]

/-- The spec's canonical primary-tier response: a fenced JSON block with
`category: "feature"`, a 90-character summary, and a valid description. -/
def c6WitnessResponse : List Char :=
  "```json\n\x7b\"category\": \"feature\", \"summary\": \"".toList
    ++ List.replicate 90 'x'
    ++ "\", \"description\": \"a valid description\"\x7d\n```".toList

/-- The trimmed block content extracted from `c6WitnessResponse`. -/
def c6WitnessContent : List Char :=
  "\x7b\"category\": \"feature\", \"summary\": \"".toList
    ++ List.replicate 90 'x'
    ++ "\", \"description\": \"a valid description\"\x7d".toList

/-- The object fields parsed from `c6WitnessContent`. -/
def c6WitnessFields : List (List Char × Json) :=
  [("category".toList, Json.str "feature".toList),
   ("summary".toList, Json.str (List.replicate 90 'x')),
   ("description".toList, Json.str "a valid description".toList)]

/-! ### A concrete checkpoint state: 5 identifiers, 3 processed, 2 analyzed -/

def c2Hash1 : CommitHash := ⟨"aaaa".toList, by decide⟩
def c2Hash2 : CommitHash := ⟨"bbbb".toList, by decide⟩
def c2Hash3 : CommitHash := ⟨"cccc".toList, by decide⟩
def c2Hash4 : CommitHash := ⟨"dddd".toList, by decide⟩
def c2Hash5 : CommitHash := ⟨"eeee".toList, by decide⟩

def c2State : ProgressState :=
  { totalCommits := [c2Hash1, c2Hash2, c2Hash3, c2Hash4, c2Hash5]
    processedCommits := [c2Hash1, c2Hash2, c2Hash3]
    analyzedCommits :=
      [⟨⟨c2Hash1, "first commit message".toList, 1700000000000,
          "diff --git a/x b/x".toList⟩,
        ⟨⟨"tweak".toList, by decide⟩, "summary one".toList,
          "a long enough description".toList⟩⟩,
       ⟨⟨c2Hash2, "second commit message".toList, 1700000100000,
          "diff --git a/y b/y".toList⟩,
        ⟨⟨"feature".toList, by decide⟩, "summary two".toList,
          "another long description".toList⟩⟩]
    lastProcessedIndex := 2
    startTime := 1700000000000
    outputFile := "out.csv".toList }

/-! ## Claim theorems -/

theorem ite_isEmpty_ne_nil (x d : List Char) (hd : d ≠ []) :
    (if x.isEmpty then d else x) ≠ [] := by
  split
  · exact hd
  · rename_i h
    simpa using h

theorem claudeNL_err_of_no_category (response : List Char)
    (h : categoryMatch response = none) :
    parseClaudeNaturalLanguageResponse response =
      Except.error "Could not extract valid category from Claude response" := by
  unfold parseClaudeNaturalLanguageResponse
  rw [h]

theorem claudeNL_ok_of_category (response c : List Char)
    (hc : categoryMatch response = some c) :
    ∃ s d, parseClaudeNaturalLanguageResponse response =
      Except.ok ⟨c, s, Json.str d⟩ ∧ s ≠ [] ∧ d ≠ [] := by
  unfold parseClaudeNaturalLanguageResponse
  rw [hc]
  exact ⟨_, _, rfl, ite_isEmpty_ne_nil _ _ (by decide),
    ite_isEmpty_ne_nil _ _ (by decide)⟩

theorem parseResponseClaude_fallback (response : List Char) (e : String)
    (h : parseResponse response = Except.error e) :
    parseResponseClaude response = parseClaudeNaturalLanguageResponse response := by
  unfold parseResponseClaude
  rw [h]

theorem runAttempts_attempts_le (cfg : RetryConfig)
    (parse : List Char → Except String ParsedAnalysis)
    (exec : Nat → Except String (List Char)) :
    ∀ (r a : Nat), (runAttempts cfg parse exec a r).attempts ≤ r := by
  intro r
  induction r with
  | zero => intro a; simp [runAttempts]
  | succ r ih =>
    intro a
    unfold runAttempts
    cases hx : (exec a).bind parse with
    | ok v => simp
    | error e =>
      by_cases hr : r = 0
      · simp [hr]
      · simp only [hr, if_false]
        have := ih (a + 1)
        simpa using this

theorem runAttempts_all_fail (cfg : RetryConfig)
    (parse : List Char → Except String ParsedAnalysis)
    (exec : Nat → Except String (List Char))
    (hfail : ∀ a, ∃ err, (exec a).bind parse = Except.error err) :
    ∀ (r a : Nat), 1 ≤ r →
      (runAttempts cfg parse exec a r).attempts = r ∧
      ∃ err, (runAttempts cfg parse exec a r).result = Except.error err := by
  intro r
  induction r with
  | zero => intro a h; omega
  | succ r ih =>
    intro a _
    obtain ⟨err, hf⟩ := hfail a
    unfold runAttempts
    rw [hf]
    by_cases hr : r = 0
    · subst hr
      exact ⟨rfl, _, rfl⟩
    · simp only [hr, if_false]
      have := ih (a + 1) (by omega)
      exact ⟨by simp [this.1], this.2⟩

/-- Claim C8: `CommitHash.create(s)` succeeds if and only if `s` has length
between 4 and 40 and consists only of hexadecimal characters
(case-insensitively; such a string is necessarily non-empty), and on
success `getValue()` returns `s` unchanged; every string that is shorter
than 4, longer than 40, or contains a non-hexadecimal character is
rejected. -/
theorem commitHash_create_spec (s : List Char) :
    ((∃ h, CommitHash.create s = Except.ok h) ↔
      (4 ≤ s.length ∧ s.length ≤ 40 ∧ ∀ c ∈ s, isHexDigitCI c = true)) ∧
    (∀ h, CommitHash.create s = Except.ok h → h.getValue = s) := by
  constructor
  · constructor
    · rintro ⟨h, hh⟩
      unfold CommitHash.create at hh
      split at hh
      · exact absurd hh (by simp)
      · split at hh
        · exact absurd hh (by simp)
        · split at hh
          · rename_i hlen hall
            refine ⟨by omega, by omega, ?_⟩
            intro c hc
            exact List.all_eq_true.mp hall c hc
          · exact absurd hh (by simp)
    · rintro ⟨h4, h40, hall⟩
      have h0 : s.isEmpty = false := by
        cases s with
        | nil => simp at h4
        | cons c r => rfl
      have h1 : ¬(s.length < 4 ∨ 40 < s.length) := by omega
      have h2 : s.all isHexDigitCI := List.all_eq_true.mpr hall
      refine ⟨⟨s, ?_⟩, ?_⟩
      · simp only [validCommitHash, h2, Bool.and_true, Bool.and_eq_true,
          decide_eq_true_eq]
        omega
      · unfold CommitHash.create
        simp [h0, h1, h2]
  · intro h hh
    unfold CommitHash.create at hh
    split at hh
    · exact absurd hh (by simp)
    · split at hh
      · exact absurd hh (by simp)
      · split at hh
        · simp only [Except.ok.injEq] at hh
          rw [← hh]
          rfl
        · exact absurd hh (by simp)

/-- Witness for C8 at concrete inputs: the valid hash `"abc1"` round-trips
through `getValue`, and `"xyz"` (length 3, non-hex) is rejected. -/
theorem commitHash_create_spec_witness :
    (∃ h, CommitHash.create "abc1".toList = Except.ok h) ∧
    (∀ h, CommitHash.create "abc1".toList = Except.ok h →
      h.getValue = "abc1".toList) ∧
    ¬(∃ h, CommitHash.create "xyz".toList = Except.ok h) := by
  refine ⟨(commitHash_create_spec "abc1".toList).1.mpr (by decide),
    (commitHash_create_spec "abc1".toList).2, ?_⟩
  intro hex
  have := (commitHash_create_spec "xyz".toList).1.mp hex
  revert this
  decide

theorem runAttempts_delays_get (cfg : RetryConfig)
    (parse : List Char → Except String ParsedAnalysis)
    (exec : Nat → Except String (List Char)) :
    ∀ (r a i : Nat) (d : Nat),
      (runAttempts cfg parse exec a r).delays[i]? = some d →
      d = backoffDelay cfg (a + i) := by
  intro r
  induction r with
  | zero => intro a i d h; simp [runAttempts] at h
  | succ r ih =>
    intro a i d h
    unfold runAttempts at h
    cases hx : (exec a).bind parse with
    | ok v => rw [hx] at h; simp at h
    | error e =>
      rw [hx] at h
      by_cases hr : r = 0
      · simp [hr] at h
      · simp only [hr, if_false] at h
        cases i with
        | zero =>
          simp at h
          rw [Nat.add_zero]
          exact h.symm
        | succ i' =>
          simp at h
          have := ih (a + 1) i' d h
          rw [this]
          congr 1
          omega

/-- Claim C4: in the retry loop of `analyzeCommit`, the delay slept after
failed attempt `k` (the `k`-th entry of the delay trace, slept only when
`k < MAX_RETRIES`) equals
`min(INITIAL_RETRY_DELAY * RETRY_MULTIPLIER^(k-1), MAX_RETRY_DELAY)`;
with the default tunables (5000 ms, multiplier 2, cap 30000 ms) the
delays are 5000 ms before attempt 2 and 10000 ms before attempt 3, and a
six-attempt configuration sleeps 5000, 10000, 20000, 30000, 30000 ms,
clamping at the cap from the delay before attempt 5 onward. -/
theorem analyzeCommit_backoff_spec (cfg : RetryConfig)
    (parse : List Char → Except String ParsedAnalysis)
    (exec : Nat → Except String (List Char)) (k d : Nat) :
    (1 ≤ k →
      (analyzeCommitRun cfg parse exec).delays[k - 1]? = some d →
      d = min (cfg.initialDelay * cfg.multiplier ^ (k - 1)) cfg.maxDelay) ∧
    (analyzeCommitRun defaultRetryConfig parse
        (fun _ => Except.error "transient")).delays = [5000, 10000] ∧
    (analyzeCommitRun ⟨6, 5000, 30000, 2⟩ parse
        (fun _ => Except.error "transient")).delays =
      [5000, 10000, 20000, 30000, 30000] := by
  refine ⟨?_, by rfl, by rfl⟩
  intro hk h
  have := runAttempts_delays_get cfg parse exec cfg.maxRetries 1 (k - 1) d h
  rw [this]
  unfold backoffDelay
  have hk1 : 1 + (k - 1) - 1 = k - 1 := by omega
  rw [hk1]

/-- Witness for C4: the delay before attempt 3 under the default
configuration is `min(5000 * 2^2⁻¹..., 30000) = 10000` ms. -/
theorem analyzeCommit_backoff_spec_witness :
    (analyzeCommitRun defaultRetryConfig parseResponse
        (fun _ => Except.error "transient")).delays[1]? = some 10000 ∧
    (10000 : Nat) =
      min (defaultRetryConfig.initialDelay * defaultRetryConfig.multiplier ^ 1)
        defaultRetryConfig.maxDelay := by
  refine ⟨by rfl, ?_⟩
  have := (analyzeCommit_backoff_spec defaultRetryConfig parseResponse
    (fun _ => Except.error "transient") 2 10000).1 (by omega) (by rfl)
  simpa using this

/-- Claim C9: `loadProgress` never throws (it is a total function into
`Option`): it returns `null` when the checkpoint file is absent, `null`
when the stored text is not parseable JSON, `null` for every stored value
failing the strict shape validation (the failure is logged and swallowed
by the `catch`), and any state it does return passed the full strict
validation — a malformed checkpoint is never partially accepted. -/
theorem loadProgress_graceful_spec :
    loadProgress FileContent.absent = none ∧
    loadProgress FileContent.notJson = none ∧
    (∀ (j : Json) (e : String), validateProgressData j = Except.error e →
      loadProgress (FileContent.json j) = none) ∧
    (∀ (j : Json) (s : ProgressState), loadProgress (FileContent.json j) = some s →
      validateProgressData j = Except.ok ()) := by
  refine ⟨rfl, rfl, ?_, ?_⟩
  · intro j e hval
    simp only [loadProgress, deserializeProgressState, hval]
    rfl
  · intro j s hload
    simp only [loadProgress] at hload
    cases hdes : deserializeProgressState j with
    | ok st =>
      unfold deserializeProgressState at hdes
      cases hval : validateProgressData j with
      | ok u => cases u; rfl
      | error e =>
        rw [hval] at hdes
        exact Except.noConfusion hdes
    | error e => rw [hdes] at hload; simp at hload

/-- Witness for C9: a stored number is rejected by validation
(`totalCommits` is not an array), so the load degrades to `null`. -/
theorem loadProgress_graceful_spec_witness :
    loadProgress (FileContent.json (Json.num 7)) = none ∧
    loadProgress FileContent.absent = none := by
  refine ⟨loadProgress_graceful_spec.2.2.1 (Json.num 7)
    "Invalid progress data: totalCommits must be an array" (by rfl),
    loadProgress_graceful_spec.1⟩

/-- Claim C10, counterexample: for the response `"Category: tweak"` the
natural-language parser finds the category, no `Description:` block and no
sentence longer than 20 characters, and falls back to the constant
`"Commit contains code changes"` — not to the constant
`"This commit contains code changes."` named by the claim. -/
theorem claudeNL_description_constant_counterexample :
    parseClaudeNaturalLanguageResponse "Category: tweak".toList =
      Except.ok ⟨"tweak".toList, "Code changes".toList,
        Json.str "Commit contains code changes".toList⟩ ∧
    "Commit contains code changes".toList ≠
      "This commit contains code changes.".toList := by
  exact ⟨by rfl, by decide⟩

/-- Claim C10, amended: in the natural-language fallback parser, failing to
extract a category is the only failure mode; whenever a category keyword is
found the parse succeeds with a non-empty summary and a non-empty
description (summary falling back to a verb-keyword line and then
`"Code changes"`; description falling back to the first sentence segment
longer than 20 characters and then to `"Commit contains code changes"`,
the constant `"This commit contains code changes."` serving only as the
last-resort guard when the cleaned description is empty), with `*` and `"`
characters stripped from extracted text. -/
theorem claudeNL_category_only_failure_spec (response : List Char) :
    (categoryMatch response = none →
      parseClaudeNaturalLanguageResponse response =
        Except.error "Could not extract valid category from Claude response") ∧
    (∀ c, categoryMatch response = some c →
      ∃ s d, parseClaudeNaturalLanguageResponse response =
          Except.ok ⟨c, s, Json.str d⟩ ∧ s ≠ [] ∧ d ≠ []) ∧
    (∀ c, categoryMatch response = some c →
      descMatch response = none →
      ((splitSentences response).filter (fun seg => 20 < (jsTrim seg).length)) = [] →
      ∃ r, parseClaudeNaturalLanguageResponse response = Except.ok r ∧
        r.description = Json.str "Commit contains code changes".toList) := by
  refine ⟨claudeNL_err_of_no_category response,
    fun c hc => claudeNL_ok_of_category response c hc, ?_⟩
  · intro c hc hdesc hsent
    unfold parseClaudeNaturalLanguageResponse
    rw [hc]
    refine ⟨_, rfl, ?_⟩
    simp only [hdesc, descriptionFallback, hsent, Option.getD_none, List.head?_nil,
      List.isEmpty_nil, if_true]
    rfl

/-- Claim C5: when the strict JSON tier throws, the Claude adapter falls
back to natural-language extraction: a response matching one of the
fallback category patterns yields that category (the concrete example
`"**Category**: tweak"` with a `Summary: fix null pointer` line yields
category `tweak` and summary `fix null pointer`); a response with no
extractable category in either tier yields a parsing error; and within
the outer retry loop every attempt — a parse failure included — counts as
exactly one attempt, at most `MAX_RETRIES` in total, all of them consumed
when every response is unparseable (no indefinite retrying). -/
theorem claude_fallback_parsing_spec :
    (∀ (response c : List Char) (e : String),
      parseResponse response = Except.error e →
      categoryMatch response = some c →
      ∃ r, parseResponseClaude response = Except.ok r ∧
        ParsedAnalysis.category r = c) ∧
    (∃ d, parseResponseClaude "**Category**: tweak\nSummary: fix null pointer".toList =
      Except.ok ⟨"tweak".toList, "fix null pointer".toList, d⟩) ∧
    (∀ (response : List Char) (e : String),
      parseResponse response = Except.error e →
      categoryMatch response = none →
      parseResponseClaude response =
        Except.error "Could not extract valid category from Claude response") ∧
    (∀ (cfg : RetryConfig) (exec : Nat → Except String (List Char)),
      (analyzeCommitRun cfg parseResponseClaude exec).attempts ≤ cfg.maxRetries) ∧
    (∀ (cfg : RetryConfig) (exec : Nat → Except String (List Char)),
      1 ≤ cfg.maxRetries →
      (∀ a, ∃ err, (exec a).bind parseResponseClaude = Except.error err) →
      (analyzeCommitRun cfg parseResponseClaude exec).attempts = cfg.maxRetries ∧
      ∃ err, (analyzeCommitRun cfg parseResponseClaude exec).result =
        Except.error err) := by
  refine ⟨?_, ⟨_, rfl⟩, ?_, ?_, ?_⟩
  · intro response c e hpr hc
    rw [parseResponseClaude_fallback response e hpr]
    obtain ⟨s, d, hok, -, -⟩ := claudeNL_ok_of_category response c hc
    exact ⟨_, hok, rfl⟩
  · intro response e hpr hc
    rw [parseResponseClaude_fallback response e hpr]
    exact claudeNL_err_of_no_category response hc
  · intro cfg exec
    exact runAttempts_attempts_le cfg parseResponseClaude exec cfg.maxRetries 1
  · intro cfg exec h1 hfail
    exact runAttempts_all_fail cfg parseResponseClaude exec hfail cfg.maxRetries 1 h1

/-- Witness for C5: a response with neither a JSON block nor any category
pattern fails both tiers, and an oracle that always returns it consumes
exactly the three default attempts. -/
theorem claude_fallback_parsing_spec_witness :
    (∃ r, parseResponseClaude "**Category**: tweak\nno json here".toList =
      Except.ok r ∧ ParsedAnalysis.category r = "tweak".toList) ∧
    (analyzeCommitRun defaultRetryConfig parseResponseClaude
        (fun _ => Except.ok "gibberish".toList)).attempts = 3 := by
  constructor
  · exact claude_fallback_parsing_spec.1 "**Category**: tweak\nno json here".toList
      "tweak".toList "Failed to parse LLM response: No JSON block found in response"
      (by rfl) (by rfl)
  · exact (claude_fallback_parsing_spec.2.2.2.2 defaultRetryConfig
      (fun _ => Except.ok "gibberish".toList) (by decide)
      (fun a => ⟨"Could not extract valid category from Claude response", by rfl⟩)).1

/-- Witness for C10 at the concrete response `"**Category**: feature\nI did
refactor things"`: the parse succeeds with non-empty summary and
description. -/
theorem claudeNL_category_only_failure_spec_witness :
    ∃ s d, parseClaudeNaturalLanguageResponse
        "**Category**: feature\nI did refactor things".toList =
      Except.ok ⟨"feature".toList, s, Json.str d⟩ ∧ s ≠ [] ∧ d ≠ [] :=
  (claudeNL_category_only_failure_spec
    "**Category**: feature\nI did refactor things".toList).2.1
    "feature".toList (by rfl)

/-- Claim C6: the primary parsing tier of `LLMAdapter.parseResponse`.  For
every response whose fenced JSON block parses to an object with a category
in the closed enumeration and non-empty string summary and description,
parsing succeeds with the summary truncated to its first 80 characters and
the description unchanged; it throws when the category is missing or
outside the enumeration, or when the summary or description is missing. -/
theorem parseResponse_primary_spec (response content : List Char)
    (fields : List (List Char × Json))
    (h1 : extractJsonBlock response = some content)
    (h2 : parseJson (jsTrim content) = some (Json.obj fields)) :
    (∀ c s d, lookupField fields "category".toList = some (Json.str c) →
      c ∈ validCategories →
      lookupField fields "summary".toList = some (Json.str s) → s ≠ [] →
      lookupField fields "description".toList = some (Json.str d) → d ≠ [] →
      parseResponse response = Except.ok ⟨c, s.take 80, Json.str d⟩) ∧
    (isValidCategory (lookupField fields "category".toList) = false →
      ∃ e, parseResponse response = Except.error e) ∧
    (isValidCategory (lookupField fields "category".toList) = true →
      lookupField fields "summary".toList = none →
      ∃ e, parseResponse response = Except.error e) ∧
    (isValidCategory (lookupField fields "category".toList) = true →
      lookupField fields "description".toList = none →
      ∃ e, parseResponse response = Except.error e) := by
  have hred : parseResponseInner response =
      (if !isValidCategory (lookupField fields "category".toList) then
        Except.error "Invalid category"
      else if jsFalsy (lookupField fields "summary".toList) ||
          jsFalsy (lookupField fields "description".toList) then
        Except.error "Missing required fields in response"
      else
        match lookupField fields "summary".toList with
        | some (Json.str s) =>
          Except.ok ⟨(match lookupField fields "category".toList with
            | some (Json.str c) => c | _ => []), s.take 80,
            (lookupField fields "description".toList).getD Json.null⟩
        | _ => Except.error "TypeError: summary.substring is not a function") := by
    unfold parseResponseInner
    rw [h1]
    show parseBlockContent content = _
    unfold parseBlockContent
    rw [h2]
    rfl
  refine ⟨?_, ?_, ?_, ?_⟩
  · intro c s d hc hcv hs hs0 hd hd0
    have hse : s.isEmpty = false := by simpa using hs0
    have hde : d.isEmpty = false := by simpa using hd0
    unfold parseResponse
    rw [hred, hc, hs, hd]
    simp [isValidCategory, jsFalsy, hse, hde, hcv]
  · intro hbad
    unfold parseResponse
    rw [hred, hbad]
    exact ⟨_, rfl⟩
  · intro hcat hs
    unfold parseResponse
    rw [hred, hcat, hs]
    exact ⟨_, rfl⟩
  · intro hcat hd
    unfold parseResponse
    rw [hred, hcat, hd]
    cases hsum : lookupField fields "summary".toList with
    | none => exact ⟨_, rfl⟩
    | some v =>
      simp only [jsFalsy, Bool.or_true]
      exact ⟨_, rfl⟩

theorem CMState.step_max (outcome : Nat → Int) (s : CMState) (e : CMEvent) :
    (s.step outcome e).maxConcurrency = s.maxConcurrency := by
  cases e with
  | submit id =>
    simp only [CMState.step]
    split <;> rfl
  | complete id =>
    simp only [CMState.step]
    split
    · rfl
    · split <;> rfl

theorem CMState.step_running_le (outcome : Nat → Int) (s : CMState) (e : CMEvent)
    (h : s.running ≤ s.maxConcurrency) :
    (s.step outcome e).running ≤ (s.step outcome e).maxConcurrency := by
  cases e with
  | submit id =>
    simp only [CMState.step]
    split
    · rename_i hlt
      simpa using hlt
    · simpa using h
  | complete id =>
    simp only [CMState.step]
    split
    · simp
      omega
    · split
      · rename_i hlt
        simp only at hlt ⊢
        omega
      · simp
        omega

theorem CMState.trace_running_le (outcome : Nat → Int) :
    ∀ (events : List CMEvent) (s : CMState), s.running ≤ s.maxConcurrency →
      ∀ st ∈ s.trace outcome events, st.running ≤ st.maxConcurrency := by
  intro events
  induction events with
  | nil =>
    intro s h st hst
    simp [CMState.trace] at hst
    subst hst
    exact h
  | cons e es ih =>
    intro s h st hst
    simp only [CMState.trace, List.mem_cons] at hst
    cases hst with
    | inl heq => subst heq; exact h
    | inr hmem => exact ih (s.step outcome e) (s.step_running_le outcome e h) st hmem

theorem CMState.trace_max_const (outcome : Nat → Int) :
    ∀ (events : List CMEvent) (s : CMState),
      ∀ st ∈ s.trace outcome events, st.maxConcurrency = s.maxConcurrency := by
  intro events
  induction events with
  | nil =>
    intro s st hst
    simp [CMState.trace] at hst
    subst hst
    rfl
  | cons e es ih =>
    intro s st hst
    simp only [CMState.trace, List.mem_cons] at hst
    cases hst with
    | inl heq => subst heq; rfl
    | inr hmem =>
      rw [ih (s.step outcome e) st hmem]
      exact s.step_max outcome e

/-- The FIFO bookkeeping: either the earlier-enqueued task `a` has already
started, or `a` still sits ahead of `b` in the wait queue, `b` has not
started, and `b` occurs exactly once in the queue. -/
def FIFOInv (a b : Nat) (s : CMState) : Prop :=
  a ∈ s.started ∨
    ([a, b].Sublist s.queue ∧ b ∉ s.started ∧ s.queue.count b = 1)

theorem FIFOInv_step (outcome : Nat → Int) (a b : Nat) (s : CMState)
    (e : CMEvent) (hab : a ≠ b)
    (hsub : ∀ id, e = CMEvent.submit id → id ≠ a ∧ id ≠ b)
    (h : FIFOInv a b s) : FIFOInv a b (s.step outcome e) := by
  cases e with
  | submit id =>
    obtain ⟨hia, hib⟩ := hsub id rfl
    cases h with
    | inl h =>
      left
      simp only [CMState.step]
      split
      · simp [h]
      · exact h
    | inr h =>
      right
      simp only [CMState.step]
      split
      · refine ⟨h.1, ?_, h.2.2⟩
        simp only [List.mem_append, List.mem_singleton]
        rintro (hmem | hbid)
        · exact h.2.1 hmem
        · exact hib hbid.symm
      · refine ⟨h.1.trans (List.sublist_append_left _ _), h.2.1, ?_⟩
        rw [List.count_append, h.2.2]
        have : List.count b [id] = 0 := by
          refine List.count_eq_zero.mpr ?_
          simp only [List.mem_singleton]
          exact fun hedge => hib hedge.symm
        omega
  | complete id =>
    cases h with
    | inl h =>
      left
      simp only [CMState.step]
      split
      · exact h
      · split
        · simp [h]
        · exact h
    | inr h =>
      rcases hq : s.queue with _ | ⟨next, rest⟩
      · rw [hq] at h
        exact absurd h.1 (by simp)
      · simp only [CMState.step, hq]
        rw [hq] at h
        have hnb : next ≠ b := by
          intro hnbeq
          subst hnbeq
          have hcount := h.2.2
          rw [List.count_cons_self] at hcount
          have hbrest : next ∈ rest := by
            cases h.1 with
            | cons _ htail =>
              have hmem : next ∈ ([a, next] : List Nat) := by simp
              exact htail.subset hmem
            | cons₂ _ htail => exact absurd rfl hab
          have := List.count_pos_iff.mpr hbrest
          omega
        split
        · by_cases hna : next = a
          · left
            subst hna
            simp
          · right
            refine ⟨?_, ?_, ?_⟩
            · cases h.1 with
              | cons _ htail => exact htail
              | cons₂ _ _ => exact absurd rfl hna
            · simp only [List.mem_append, List.mem_singleton]
              rintro (hmem | hbnext)
              · exact h.2.1 hmem
              · exact hnb hbnext.symm
            · have hcount := h.2.2
              rw [List.count_cons_of_ne (fun hx => hnb hx.symm)] at hcount
              exact hcount
        · right
          exact h

theorem FIFOInv_run (outcome : Nat → Int) (a b : Nat) (hab : a ≠ b) :
    ∀ (events : List CMEvent) (s : CMState),
      (∀ e ∈ events, ∀ id, e = CMEvent.submit id → id ≠ a ∧ id ≠ b) →
      FIFOInv a b s → FIFOInv a b (s.run outcome events) := by
  intro events
  induction events with
  | nil => intro s _ h; exact h
  | cons e es ih =>
    intro s hsub h
    exact ih (s.step outcome e) (fun e' he' => hsub e' (by simp [he']))
      (FIFOInv_step outcome a b s e hab (hsub e (by simp)) h)

theorem CMState.run_resolved_own (outcome : Nat → Int) :
    ∀ (events : List CMEvent) (s : CMState),
      (∀ p ∈ s.resolved, p.2 = outcome p.1) →
      ∀ p ∈ (s.run outcome events).resolved, p.2 = outcome p.1 := by
  intro events
  induction events with
  | nil => intro s h; exact h
  | cons e es ih =>
    intro s h
    refine ih (s.step outcome e) ?_
    intro p hp
    cases e with
    | submit id =>
      simp only [CMState.step] at hp
      split at hp
      · exact h p hp
      · exact h p hp
    | complete id =>
      simp only [CMState.step] at hp
      split at hp
      · simp at hp
        cases hp with
        | inl hmem => exact h p hmem
        | inr heq => subst heq; rfl
      · split at hp
        · simp at hp
          cases hp with
          | inl hmem => exact h p hmem
          | inr heq => subst heq; rfl
        · simp at hp
          cases hp with
          | inl hmem => exact h p hmem
          | inr heq => subst heq; rfl

/-- Claim C7: the `ConcurrencyManager` contract.  In every state reachable
from a fresh manager the running count never exceeds the construction-time
bound `N`; a task enqueued ahead of another starts no later than it (FIFO);
every settled promise carries its own task's outcome; and the concrete
max-2 / five-fixed-delay-task schedule keeps at most 2 tasks running while
all five resolve with their own results in submission order. -/
theorem concurrencyManager_contract_spec :
    (∀ (outcome : Nat → Int) (N : Nat) (events : List CMEvent),
      ∀ st ∈ (CMState.init N).trace outcome events, st.running ≤ N) ∧
    (∀ (outcome : Nat → Int) (a b : Nat) (s : CMState) (events : List CMEvent),
      a ≠ b →
      (∀ e ∈ events, ∀ id, e = CMEvent.submit id → id ≠ a ∧ id ≠ b) →
      FIFOInv a b s →
      b ∈ (s.run outcome events).started → a ∈ (s.run outcome events).started) ∧
    (∀ (outcome : Nat → Int) (N : Nat) (events : List CMEvent),
      ∀ p ∈ ((CMState.init N).run outcome events).resolved, p.2 = outcome p.1) ∧
    (((CMState.init 2).trace (fun id => (id : Int) * 10)
        [CMEvent.submit 1, CMEvent.submit 2, CMEvent.submit 3, CMEvent.submit 4,
         CMEvent.submit 5, CMEvent.complete 1, CMEvent.complete 2,
         CMEvent.complete 3, CMEvent.complete 4, CMEvent.complete 5]).all
        (fun st => st.running ≤ 2) = true ∧
      (CMState.init 2).run (fun id => (id : Int) * 10)
        [CMEvent.submit 1, CMEvent.submit 2, CMEvent.submit 3, CMEvent.submit 4,
         CMEvent.submit 5, CMEvent.complete 1, CMEvent.complete 2,
         CMEvent.complete 3, CMEvent.complete 4, CMEvent.complete 5] =
        ⟨2, 0, [], [1, 2, 3, 4, 5],
          [(1, 10), (2, 20), (3, 30), (4, 40), (5, 50)]⟩) := by
  refine ⟨?_, ?_, ?_, by decide, by decide⟩
  · intro outcome N events st hst
    have h1 := CMState.trace_running_le outcome events (CMState.init N)
      (by simp [CMState.init]) st hst
    have h2 := CMState.trace_max_const outcome events (CMState.init N) st hst
    rw [h2] at h1
    exact h1
  · intro outcome a b s events hab hsub hinv hb
    cases FIFOInv_run outcome a b hab events s hsub hinv with
    | inl h => exact h
    | inr h => exact absurd hb h.2.1
  · intro outcome N events
    exact CMState.run_resolved_own outcome events (CMState.init N)
      (by simp [CMState.init])

/-- Witness for C7: in the concrete schedule, task 3 was enqueued ahead of
task 4 after the first two filled both slots, and indeed starts before it. -/
theorem concurrencyManager_contract_spec_witness :
    4 ∈ ((CMState.init 2).run (fun id => (id : Int) * 10)
      [CMEvent.submit 1, CMEvent.submit 2, CMEvent.submit 3, CMEvent.submit 4,
       CMEvent.submit 5, CMEvent.complete 1, CMEvent.complete 2,
       CMEvent.complete 3, CMEvent.complete 4, CMEvent.complete 5]).started →
    3 ∈ ((CMState.init 2).run (fun id => (id : Int) * 10)
      [CMEvent.submit 1, CMEvent.submit 2, CMEvent.submit 3, CMEvent.submit 4,
       CMEvent.submit 5, CMEvent.complete 1, CMEvent.complete 2,
       CMEvent.complete 3, CMEvent.complete 4, CMEvent.complete 5]).started := by
  have hrun := concurrencyManager_contract_spec.2.1 (fun id => (id : Int) * 10) 3 4
    ((CMState.init 2).run (fun id => (id : Int) * 10)
      [CMEvent.submit 1, CMEvent.submit 2, CMEvent.submit 3, CMEvent.submit 4,
       CMEvent.submit 5])
    [CMEvent.complete 1, CMEvent.complete 2, CMEvent.complete 3,
     CMEvent.complete 4, CMEvent.complete 5]
    (by decide) (by intro e he id heq; simp at he; rcases he with h | h | h | h | h <;>
      simp [h] at heq) (by right; refine ⟨?_, ?_, ?_⟩ <;> decide)
  intro hb
  exact hrun hb

/-- Claim C2, code bug: the spec's checkpoint round trip fails whenever any
analyzed result is present.  `getRemainingCommits` does return the two
unprocessed identifiers in original order; but `loadProgress` after
`saveProgress` returns `null`, because `deserializeAnalyzedCommits`
reconstructs each stored commit with an empty diff (and passes the
constructor arguments positionally to a params-object constructor), and
the `Commit` constructor rejects an empty diff
(`"Commit diff is required"`), so the `catch` in `loadProgress` swallows
the error and reports no checkpoint. -/
theorem checkpoint_roundtrip_bug :
    getRemainingCommits c2State = [c2Hash4, c2Hash5] ∧
    loadProgress (saveProgress c2State) = none ∧
    c2State.processedCommits.length = 3 ∧
    c2State.totalCommits.length = 5 ∧
    c2State.analyzedCommits.length = 2 := by
  exact ⟨by rfl, by rfl, rfl, rfl, rfl⟩

set_option maxRecDepth 8000 in
/-- Witness for C6: the canonical response whose JSON block carries
`category: "feature"`, a 90-character summary and a valid description
parses to a summary of exactly 80 characters. -/
theorem parseResponse_primary_spec_witness :
    parseResponse c6WitnessResponse =
      Except.ok ⟨"feature".toList, (List.replicate 90 'x').take 80,
        Json.str "a valid description".toList⟩ ∧
    ((List.replicate 90 'x').take 80).length = 80 := by
  constructor
  · exact (parseResponse_primary_spec c6WitnessResponse c6WitnessContent
        c6WitnessFields (by rfl) (by rfl)).1
      "feature".toList (List.replicate 90 'x') "a valid description".toList
      (by rfl) (by decide) (by rfl) (by decide) (by rfl) (by decide)
  · decide

theorem successesOf_nil : successesOf [] = [] := rfl

theorem successesOf_cons_success (h : List Char) (a : ParsedAnalysis)
    (rest : List (List Char × ItemOutcome)) :
    successesOf ((h, ItemOutcome.success a) :: rest) = (h, a) :: successesOf rest :=
  rfl

theorem successesOf_cons_invalid (h : List Char)
    (rest : List (List Char × ItemOutcome)) :
    successesOf ((h, ItemOutcome.invalidHash) :: rest) = successesOf rest := rfl

theorem successesOf_cons_failure (h m : List Char)
    (rest : List (List Char × ItemOutcome)) :
    successesOf ((h, ItemOutcome.failure m) :: rest) = successesOf rest := rfl

theorem successHashesOf_nil : successHashesOf [] = [] := rfl

theorem successHashesOf_cons_success (h : List Char) (a : ParsedAnalysis)
    (rest : List (List Char × ItemOutcome)) :
    successHashesOf ((h, ItemOutcome.success a) :: rest) =
      h :: successHashesOf rest := rfl

theorem successHashesOf_cons_invalid (h : List Char)
    (rest : List (List Char × ItemOutcome)) :
    successHashesOf ((h, ItemOutcome.invalidHash) :: rest) =
      successHashesOf rest := rfl

theorem processCommitsAux_failfast (initialProcessed total : Nat)
    (hash m : List Char) (post : List (List Char × ItemOutcome)) :
    ∀ (pre : List (List Char × ItemOutcome)),
      (∀ x ∈ pre, x.2.isFailure = false) →
      ∀ (idx : Nat) (proc : List (List Char))
        (anal : List (List Char × ParsedAnalysis)) (failed : Nat)
        (disp : List (List Char)) (saves : List (SaveTrigger × Nat)),
      saves.countP (fun sv => decide (sv.1 = SaveTrigger.onFailure)) = 0 →
      (processCommitsAux initialProcessed total
          (pre ++ (hash, ItemOutcome.failure m) :: post) idx proc anal failed
          disp saves).halted = true ∧
      (processCommitsAux initialProcessed total
          (pre ++ (hash, ItemOutcome.failure m) :: post) idx proc anal failed
          disp saves).saves.countP
          (fun sv => decide (sv.1 = SaveTrigger.onFailure)) = 1 ∧
      (processCommitsAux initialProcessed total
          (pre ++ (hash, ItemOutcome.failure m) :: post) idx proc anal failed
          disp saves).dispatched = disp ++ successHashesOf pre ++ [hash] ∧
      (processCommitsAux initialProcessed total
          (pre ++ (hash, ItemOutcome.failure m) :: post) idx proc anal failed
          disp saves).analyzed = anal ++ successesOf pre ∧
      (processCommitsAux initialProcessed total
          (pre ++ (hash, ItemOutcome.failure m) :: post) idx proc anal failed
          disp saves).exported =
        (if (anal ++ successesOf pre).isEmpty then none
          else some (anal ++ successesOf pre)) := by
  intro pre
  induction pre with
  | nil =>
    intro _ idx proc anal failed disp saves hsaves
    refine ⟨rfl, ?_, ?_, ?_, ?_⟩
    · show (saves ++ [(SaveTrigger.onFailure, (proc ++ [hash]).length)]).countP
        (fun sv => decide (sv.1 = SaveTrigger.onFailure)) = 1
      rw [List.countP_append, hsaves]
      rfl
    · show disp ++ [hash] = disp ++ successHashesOf [] ++ [hash]
      rw [successHashesOf_nil, List.append_nil]
    · show anal = anal ++ successesOf []
      rw [successesOf_nil, List.append_nil]
    · show (if anal.isEmpty then none else some anal) =
        (if (anal ++ successesOf []).isEmpty then none
          else some (anal ++ successesOf []))
      rw [successesOf_nil, List.append_nil]
  | cons x pre ih =>
    intro hpre idx proc anal failed disp saves hsaves
    have hx : x.2.isFailure = false := hpre x (by simp)
    have hpre' : ∀ y ∈ pre, y.2.isFailure = false :=
      fun y hy => hpre y (by simp [hy])
    rcases x with ⟨xh, xo⟩
    cases xo with
    | invalidHash =>
      simp only [List.cons_append, processCommitsAux]
      have := ih hpre' (idx + 1) (proc ++ [xh]) anal (failed + 1) disp saves hsaves
      simpa [successHashesOf_cons_invalid, successesOf_cons_invalid] using this
    | success a =>
      simp only [List.cons_append, processCommitsAux]
      have hsaves' : ∀ (sv : List (SaveTrigger × Nat)),
          sv.countP (fun sv => decide (sv.1 = SaveTrigger.onFailure)) = 0 →
          (sv ++ [(SaveTrigger.periodic, (proc ++ [xh]).length)]).countP
            (fun sv => decide (sv.1 = SaveTrigger.onFailure)) = 0 := by
        intro sv hsv
        rw [List.countP_append, hsv]
        rfl
      split
      · have := ih hpre' (idx + 1) (proc ++ [xh]) (anal ++ [(xh, a)]) failed
          (disp ++ [xh])
          (saves ++ [(SaveTrigger.periodic, (proc ++ [xh]).length)])
          (hsaves' saves hsaves)
        simpa [successHashesOf_cons_success, successesOf_cons_success] using this
      · have := ih hpre' (idx + 1) (proc ++ [xh]) (anal ++ [(xh, a)]) failed
          (disp ++ [xh]) saves hsaves
        simpa [successHashesOf_cons_success, successesOf_cons_success] using this
    | failure msg =>
      exact absurd hx (by simp [ItemOutcome.isFailure])

theorem useCaseHandleAux_closed (interval total : Nat) :
    ∀ (items : List (List Char × ItemOutcome)),
      (∀ x ∈ items, x.2.isInvalid = false) →
      ∀ (idx : Nat) (proc : List (List Char))
        (anal : List (List Char × ParsedAnalysis)) (failed : Nat)
        (disp : List (List Char)) (saves : List (SaveTrigger × Nat)),
      (useCaseHandleAux interval total items idx proc anal failed disp
          saves).halted = false ∧
      (useCaseHandleAux interval total items idx proc anal failed disp
          saves).dispatched = disp ++ items.map (·.1) ∧
      (useCaseHandleAux interval total items idx proc anal failed disp
          saves).analyzed = anal ++ successesOf items ∧
      (useCaseHandleAux interval total items idx proc anal failed disp
          saves).exported =
        (if (anal ++ successesOf items).isEmpty then none
          else some (anal ++ successesOf items)) ∧
      (useCaseHandleAux interval total items idx proc anal failed disp
          saves).saves.countP (fun sv => decide (sv.1 = SaveTrigger.onFailure)) =
        saves.countP (fun sv => decide (sv.1 = SaveTrigger.onFailure)) +
          items.countP (fun x => x.2.isFailure) := by
  intro items
  induction items with
  | nil =>
    intro _ idx proc anal failed disp saves
    refine ⟨rfl, ?_, ?_, ?_, ?_⟩
    · show disp = disp ++ List.map (·.1) ([] : List (List Char × ItemOutcome))
      rw [List.map_nil, List.append_nil]
    · show anal = anal ++ successesOf []
      rw [successesOf_nil, List.append_nil]
    · show (if anal.isEmpty then none else some anal) =
        (if (anal ++ successesOf []).isEmpty then none
          else some (anal ++ successesOf []))
      rw [successesOf_nil, List.append_nil]
    · show saves.countP (fun sv => decide (sv.1 = SaveTrigger.onFailure)) =
        saves.countP (fun sv => decide (sv.1 = SaveTrigger.onFailure)) +
          List.countP (fun (x : List Char × ItemOutcome) => x.2.isFailure) []
      rw [List.countP_nil, Nat.add_zero]
  | cons x items ih =>
    intro hinv idx proc anal failed disp saves
    have hx : x.2.isInvalid = false := hinv x (by simp)
    have hinv' : ∀ y ∈ items, y.2.isInvalid = false :=
      fun y hy => hinv y (by simp [hy])
    rcases x with ⟨xh, xo⟩
    cases xo with
    | invalidHash => exact absurd hx (by simp [ItemOutcome.isInvalid])
    | success a =>
      simp only [useCaseHandleAux]
      split
      · have := ih hinv' (idx + 1) (proc ++ [xh]) (anal ++ [(xh, a)]) failed
          (disp ++ [xh])
          (saves ++ [(SaveTrigger.periodic, (proc ++ [xh]).length)])
        refine ⟨this.1, ?_, ?_, ?_, ?_⟩
        · rw [this.2.1]
          simp
        · rw [this.2.2.1, successesOf_cons_success]
          simp
        · rw [this.2.2.2.1, successesOf_cons_success]
          simp
        · rw [this.2.2.2.2, List.countP_append, List.countP_cons]
          simp [ItemOutcome.isFailure]
      · have := ih hinv' (idx + 1) (proc ++ [xh]) (anal ++ [(xh, a)]) failed
          (disp ++ [xh]) saves
        refine ⟨this.1, ?_, ?_, ?_, ?_⟩
        · rw [this.2.1]
          simp
        · rw [this.2.2.1, successesOf_cons_success]
          simp
        · rw [this.2.2.2.1, successesOf_cons_success]
          simp
        · rw [this.2.2.2.2, List.countP_cons]
          simp [ItemOutcome.isFailure]
    | failure msg =>
      simp only [useCaseHandleAux]
      have := ih hinv' (idx + 1) (proc ++ [xh]) anal (failed + 1)
        (disp ++ [xh]) (saves ++ [(SaveTrigger.onFailure, (proc ++ [xh]).length)])
      refine ⟨this.1, ?_, ?_, ?_, ?_⟩
      · rw [this.2.1]
        simp
      · rw [this.2.2.1, successesOf_cons_failure]
      · rw [this.2.2.2.1, successesOf_cons_failure]
      · rw [this.2.2.2.2, List.countP_append, List.countP_cons]
        simp [ItemOutcome.isFailure]
        omega

/-- Claim C1, counterexample: in the sequential (batch size 1) path of
`AnalyzeCommitsUseCase.handle`, after the second of three items fails the
third item is still dispatched to the analysis service, the final export
contains the success that came *after* the failure, and the run is not
halted — refuting fail-fast as stated for this cited orchestrator. -/
theorem orchestrator_failfast_counterexample :
    (useCaseHandle 10 c1Items).dispatched =
      ["aaaa".toList, "bbbb".toList, "cccc".toList] ∧
    (useCaseHandle 10 c1Items).exported =
      some [("aaaa".toList, c1Analysis1), ("cccc".toList, c1Analysis3)] ∧
    (useCaseHandle 10 c1Items).halted = false :=
  ⟨rfl, rfl, rfl⟩

/-- Claim C1, amended: fail-fast holds for the legacy orchestrator
`CommitProcessor.processCommits`, where the first item failure (after the
Analysis Client's internal retries) halts the run with exactly one
failure-triggered checkpoint save, exports exactly the results accumulated
before the failure (no export file when there were none), and dispatches
no later item; the layered `AnalyzeCommitsUseCase.handle` (batch size 1)
instead saves a checkpoint on each failure and continues, dispatching
every item and exporting all accumulated successes at the end. -/
theorem orchestrator_failfast_spec
    (pre post : List (List Char × ItemOutcome)) (hash m : List Char)
    (hpre : ∀ x ∈ pre, x.2.isFailure = false)
    (items : List (List Char × ItemOutcome)) (interval : Nat)
    (hitems : ∀ x ∈ items, x.2.isInvalid = false) :
    ((processCommits 0 (pre ++ (hash, ItemOutcome.failure m) :: post)).halted =
        true ∧
      failureSaves (processCommits 0
        (pre ++ (hash, ItemOutcome.failure m) :: post)) = 1 ∧
      (processCommits 0 (pre ++ (hash, ItemOutcome.failure m) :: post)).dispatched =
        successHashesOf pre ++ [hash] ∧
      (processCommits 0 (pre ++ (hash, ItemOutcome.failure m) :: post)).analyzed =
        successesOf pre ∧
      (processCommits 0 (pre ++ (hash, ItemOutcome.failure m) :: post)).exported =
        (if (successesOf pre).isEmpty then none else some (successesOf pre))) ∧
    ((useCaseHandle interval items).halted = false ∧
      (useCaseHandle interval items).dispatched = items.map (·.1) ∧
      (useCaseHandle interval items).analyzed = successesOf items ∧
      (useCaseHandle interval items).exported =
        (if (successesOf items).isEmpty then none else some (successesOf items)) ∧
      failureSaves (useCaseHandle interval items) =
        items.countP (fun x => x.2.isFailure)) := by
  constructor
  · have := processCommitsAux_failfast 0
      (pre ++ (hash, ItemOutcome.failure m) :: post).length hash m post pre hpre
      0 [] [] 0 [] [] (by rfl)
    simpa [processCommits, failureSaves] using this
  · have := useCaseHandleAux_closed interval items.length items hitems 0 [] [] 0 [] []
    simpa [useCaseHandle, failureSaves] using this

/-- Witness for C1's amended theorem at the concrete three-item runs: the
legacy orchestrator halts at the failing second item with one failure
save, while the use case processes all three items. -/
theorem orchestrator_failfast_spec_witness :
    (processCommits 0 c1Items).halted = true ∧
    failureSaves (processCommits 0 c1Items) = 1 ∧
    (processCommits 0 c1Items).dispatched = ["aaaa".toList, "bbbb".toList] ∧
    (useCaseHandle 10 c1Items).dispatched =
      ["aaaa".toList, "bbbb".toList, "cccc".toList] := by
  have h := orchestrator_failfast_spec
    [("aaaa".toList, ItemOutcome.success c1Analysis1)]
    [("cccc".toList, ItemOutcome.success c1Analysis3)]
    "bbbb".toList "transient failure after retries".toList
    (by intro x hx; simp at hx; subst hx; rfl)
    c1Items 10
    (by intro x hx; simp [c1Items] at hx;
        rcases hx with h | h | h <;> simp [h, c1Analysis1, c1Analysis3,
          ItemOutcome.isInvalid])
  refine ⟨?_, ?_, ?_, ?_⟩
  · exact h.1.1
  · exact h.1.2.1
  · have := h.1.2.2.1
    simpa [successHashesOf] using this
  · exact h.2.2.1

/-! ### Infrastructure for the truncation claim -/

theorem idxOf_append (pat : List Char) :
    ∀ (a b : List Char), pat.isPrefixOf b = true →
      (∀ k, k < a.length → pat.isPrefixOf ((a ++ b).drop k) = false) →
      idxOf pat (a ++ b) = some a.length := by
  intro a
  induction a with
  | nil =>
    intro b hpre _
    cases b with
    | nil =>
      cases pat with
      | nil => rfl
      | cons p ps => simp [List.isPrefixOf] at hpre
    | cons x r =>
      simp only [List.nil_append, idxOf, hpre, if_true]
      rfl
  | cons x a ih =>
    intro b hpre hno
    have h0 : pat.isPrefixOf (x :: (a ++ b)) = false := by
      have := hno 0 (by simp)
      simpa using this
    show idxOf pat ((x :: a) ++ b) = some (x :: a).length
    rw [List.cons_append]
    show (if pat.isPrefixOf (x :: (a ++ b)) = true then some 0
      else (idxOf pat (a ++ b)).map (· + 1)) = some (x :: a).length
    rw [h0]
    simp only [Bool.false_eq_true, if_false]
    rw [ih b hpre ?_]
    · simp
    · intro k hk
      have := hno (k + 1) (by simp; omega)
      simpa using this

theorem isPrefixOf_single_head (c y : Char) (ys : List Char) :
    [c].isPrefixOf (y :: ys) = (c == y) := by
  simp [List.isPrefixOf]

theorem idxOf_single_append (c : Char) (m t : List Char) (hc : c ∉ m) :
    idxOf [c] (m ++ c :: t) = some m.length := by
  refine idxOf_append [c] m (c :: t) (by simp [List.isPrefixOf]) ?_
  intro k hk
  rw [List.drop_append_of_le_length (by omega)] at *
  · have hdrop : m.drop k = m[k] :: m.drop (k + 1) := List.drop_eq_getElem_cons hk
    rw [show (m.drop k ++ c :: t) = m[k] :: (m.drop (k + 1) ++ c :: t) by
      rw [hdrop]; rfl]
    rw [isPrefixOf_single_head]
    have : m[k] ∈ m := List.getElem_mem hk
    simp
    intro hcm
    exact hc (hcm ▸ this)

theorem encodeNatAux_all_digits :
    ∀ (fuel n : Nat), (encodeNatAux fuel n).all isDigit = true := by
  intro fuel
  induction fuel with
  | zero => intro n; rfl
  | succ f ih =>
    intro n
    unfold encodeNatAux
    split
    · rename_i h10
      have : isDigit (Char.ofNat (48 + n)) = true := by
        interval_cases n <;> decide
      simp [this]
    · rw [List.all_append]
      have h10 : n % 10 < 10 := Nat.mod_lt _ (by omega)
      have hlast : isDigit (Char.ofNat (48 + n % 10)) = true := by
        generalize n % 10 = r at h10
        interval_cases r <;> decide
      simp [ih, hlast]

theorem encodeNat_all_digits (n : Nat) : (encodeNat n).all isDigit = true :=
  encodeNatAux_all_digits (n + 1) n

theorem count_eq_zero_of_all_digits (s : List Char)
    (h : s.all isDigit = true) : s.count '[' = 0 := by
  refine List.count_eq_zero.mpr ?_
  intro hmem
  have := List.all_eq_true.mp h '[' hmem
  simp [isDigit] at this

theorem encodeNatAux_length_le :
    ∀ (fuel k n : Nat), n < fuel → n < 10 ^ k → 1 ≤ k →
      (encodeNatAux fuel n).length ≤ k := by
  intro fuel
  induction fuel with
  | zero => intro k n h; omega
  | succ f ih =>
    intro k n hfuel hk hk1
    unfold encodeNatAux
    split
    · simpa using hk1
    · rename_i h10
      push_neg at h10
      rw [List.length_append]
      have hk2 : 2 ≤ k := by
        by_contra hlt
        have : k = 1 := by omega
        subst this
        simp at hk
        omega
      have hdiv : n / 10 < f := by
        have h1 : n / 10 < n := Nat.div_lt_self (by omega) (by omega)
        omega
      have hpow : n / 10 < 10 ^ (k - 1) := by
        rw [Nat.div_lt_iff_lt_mul (by omega)]
        have : 10 ^ (k - 1) * 10 = 10 ^ k := by
          rw [← pow_succ]
          congr 1
          omega
        omega
      have := ih (k - 1) (n / 10) hdiv hpow (by omega)
      simp only [List.length_cons, List.length_nil]
      omega

theorem encodeNat_length_le (k n : Nat) (h : n < 10 ^ k) (hk : 1 ≤ k) :
    (encodeNat n).length ≤ k :=
  encodeNatAux_length_le (n + 1) k n (by omega) h hk

theorem countOccur_le_count (c : Char) (pat' : List Char) :
    ∀ (s : List Char), countOccur (c :: pat') s ≤ s.count c := by
  intro s
  induction s with
  | nil => simp [countOccur]
  | cons x rest ih =>
    have hstep : countOccur (c :: pat') (x :: rest) =
        (if (c :: pat').isPrefixOf (x :: rest) = true then 1 else 0) +
          countOccur (c :: pat') rest := rfl
    rw [hstep, List.count_cons]
    by_cases hp : (c :: pat').isPrefixOf (x :: rest) = true
    · have hcx : c = x := by
        simp [List.isPrefixOf] at hp
        exact hp.1
      rw [if_pos hp, if_pos (by simp [hcx])]
      omega
    · rw [if_neg hp]
      by_cases hcx : (x == c) = true
      · rw [if_pos hcx]
        omega
      · rw [if_neg hcx]
        omega

theorem one_le_countOccur (c : Char) (pat' : List Char) :
    ∀ (a b : List Char), 1 ≤ countOccur (c :: pat') (a ++ (c :: pat') ++ b) := by
  intro a
  induction a with
  | nil =>
    intro b
    have hpre : (c :: pat').isPrefixOf (c :: (pat' ++ b)) = true :=
      List.isPrefixOf_iff_prefix.mpr ⟨b, rfl⟩
    show 1 ≤ countOccur (c :: pat') ((c :: pat') ++ b)
    rw [show (c :: pat') ++ b = c :: (pat' ++ b) from rfl]
    have hstep : countOccur (c :: pat') (c :: (pat' ++ b)) =
        (if (c :: pat').isPrefixOf (c :: (pat' ++ b)) = true then 1 else 0) +
          countOccur (c :: pat') (pat' ++ b) := rfl
    rw [hstep, if_pos hpre]
    omega
  | cons x a ih =>
    intro b
    show 1 ≤ countOccur (c :: pat') (x :: (a ++ (c :: pat') ++ b))
    have hstep : countOccur (c :: pat') (x :: (a ++ (c :: pat') ++ b)) =
        (if (c :: pat').isPrefixOf (x :: (a ++ (c :: pat') ++ b)) = true
          then 1 else 0) +
          countOccur (c :: pat') (a ++ (c :: pat') ++ b) := rfl
    rw [hstep]
    have := ih b
    split
    · omega
    · omega

theorem buildPrompt_eq (msg diff : List Char) :
    buildPrompt msg diff =
      (promptHeader ++ msg ++ "\n\n".toList) ++ diffMarker
        ++ '\n' :: (diff ++ promptInstructions) := by
  simp [buildPrompt]

/-- The shape of `truncatePrompt` when the prompt is over the limit, the
marker is found at its genuine position, and the cut lands inside the diff
payload: the pre-diff portion and diff header survive, the diff (and the
original trailing instructions behind it) are cut at the computed budget,
and the truncation notice plus the shortened categorization reminder are
appended. -/
theorem truncatePrompt_characterization (maxLength : Nat) (msg diff : List Char)
    (hmark : ∀ k, k < (promptHeader ++ msg ++ "\n\n".toList).length →
      diffMarker.isPrefixOf ((buildPrompt msg diff).drop k) = false)
    (hlen : maxLength < (buildPrompt msg diff).length)
    (hcut : truncBudget maxLength (promptHeader ++ msg ++ "\n\n".toList).length <
      ((diff ++ promptInstructions).length : Int)) :
    truncatePrompt maxLength (buildPrompt msg diff) =
      (promptHeader ++ msg ++ "\n\n".toList) ++ (diffMarker ++ ['\n'])
        ++ (diff ++ promptInstructions).take
            (truncBudget maxLength
              (promptHeader ++ msg ++ "\n\n".toList).length).toNat
        ++ (truncationNoticePrefix
            ++ encodeNat (diff ++ promptInstructions).length
            ++ " characters]".toList)
        ++ truncationStub := by
  have hshape := buildPrompt_eq msg diff
  set pre := promptHeader ++ msg ++ "\n\n".toList with hpre
  set tail := '\n' :: (diff ++ promptInstructions) with htail
  have hidx : idxOf diffMarker (buildPrompt msg diff) = some pre.length := by
    rw [hshape, List.append_assoc]
    refine idxOf_append diffMarker pre (diffMarker ++ tail) ?_ ?_
    · exact List.isPrefixOf_iff_prefix.mpr ⟨tail, rfl⟩
    · intro k hk
      have := hmark k hk
      rw [hshape, List.append_assoc] at this
      exact this
  have htake : (buildPrompt msg diff).take pre.length = pre := by
    rw [hshape, List.append_assoc, List.take_left]
  have hdrop : (buildPrompt msg diff).drop pre.length = diffMarker ++ tail := by
    rw [hshape, List.append_assoc, List.drop_left]
  have hnl : idxOf ['\n'] (diffMarker ++ tail) = some 12 := by
    rw [htail]
    have := idxOf_single_append '\n' diffMarker (diff ++ promptInstructions)
      (by decide)
    simpa using this
  have h13 : jsIndexOfPlusOne ['\n'] (diffMarker ++ tail) = 13 := by
    unfold jsIndexOfPlusOne
    rw [hnl]
  have hheader : (diffMarker ++ tail).take 13 = diffMarker ++ ['\n'] := by
    rw [htail, List.take_append_eq_append_take]
    have h12 : diffMarker.length = 12 := by decide
    rw [show diffMarker.take 13 = diffMarker from
      List.take_of_length_le (by rw [h12]; omega)]
    rw [h12]
    rfl
  have hcontent : (diffMarker ++ tail).drop 13 = diff ++ promptInstructions := by
    rw [htail, List.drop_append_eq_append_drop]
    have h12 : diffMarker.length = 12 := by decide
    rw [show diffMarker.drop 13 = [] from List.drop_eq_nil_of_le (by rw [h12]; omega)]
    rw [h12]
    rfl
  have hhl : (diffMarker ++ ['\n']).length = 13 := by decide
  unfold truncatePrompt
  rw [if_neg (by omega)]
  rw [hidx]
  show truncateAt maxLength (buildPrompt msg diff) pre.length = _
  simp only [truncateAt, htake, hdrop, h13, hheader, hcontent, hhl]
  have hbudget : (max 1000 ((maxLength : Int) - ((pre.length + 13 + 500 : Nat) : Int))) =
      truncBudget maxLength pre.length := rfl
  rw [if_pos ?_]
  · simp only [List.append_assoc]
    rw [hbudget]
  · rw [hbudget]
    exact hcut

theorem truncatePrompt_length_le (maxLength : Nat) (msg diff : List Char)
    (hmark : ∀ k, k < (promptHeader ++ msg ++ "\n\n".toList).length →
      diffMarker.isPrefixOf ((buildPrompt msg diff).drop k) = false)
    (hlen : maxLength < (buildPrompt msg diff).length)
    (hcut : truncBudget maxLength (promptHeader ++ msg ++ "\n\n".toList).length <
      ((diff ++ promptInstructions).length : Int))
    (hover : (promptHeader ++ msg ++ "\n\n".toList).length + 13 + 500 + 1000 ≤
      maxLength)
    (hdig : (diff ++ promptInstructions).length < 10 ^ 15) :
    (truncatePrompt maxLength (buildPrompt msg diff)).length ≤ maxLength := by
  rw [truncatePrompt_characterization maxLength msg diff hmark hlen hcut]
  set pre := promptHeader ++ msg ++ "\n\n".toList with hpredef
  set tail := diff ++ promptInstructions with htaildef
  have hb : (truncBudget maxLength pre.length).toNat =
      maxLength - (pre.length + 513) := by
    unfold truncBudget
    omega
  have h1 : truncationNoticePrefix.length ≤ 40 := by decide
  have h2 : (" characters]".toList).length ≤ 12 := by decide
  have h3 : truncationStub.length ≤ 80 := by decide
  have h4 : (encodeNat tail.length).length ≤ 15 :=
    encodeNat_length_le 15 _ hdig (by omega)
  have h5 : diffMarker.length = 12 := by decide
  have hcutn : (truncBudget maxLength pre.length).toNat ≤ tail.length := by
    unfold truncBudget at hcut ⊢
    omega
  simp only [List.length_append, List.length_take, List.length_cons,
    List.length_nil]
  omega

set_option maxRecDepth 8000 in
theorem truncatePrompt_notice_once (maxLength : Nat) (msg diff : List Char)
    (hmark : ∀ k, k < (promptHeader ++ msg ++ "\n\n".toList).length →
      diffMarker.isPrefixOf ((buildPrompt msg diff).drop k) = false)
    (hlen : maxLength < (buildPrompt msg diff).length)
    (hcut : truncBudget maxLength (promptHeader ++ msg ++ "\n\n".toList).length <
      ((diff ++ promptInstructions).length : Int))
    (hbm : msg.count '[' = 0) (hbd : diff.count '[' = 0) :
    countOccur "[DIFF TRUNCATED".toList
      (truncatePrompt maxLength (buildPrompt msg diff)) = 1 := by
  rw [truncatePrompt_characterization maxLength msg diff hmark hlen hcut]
  have hpat : "[DIFF TRUNCATED".toList = '[' :: "DIFF TRUNCATED".toList := rfl
  have hupper : countOccur "[DIFF TRUNCATED".toList
      ((promptHeader ++ msg ++ "\n\n".toList) ++ (diffMarker ++ ['\n'])
        ++ (diff ++ promptInstructions).take
            (truncBudget maxLength
              (promptHeader ++ msg ++ "\n\n".toList).length).toNat
        ++ (truncationNoticePrefix
            ++ encodeNat (diff ++ promptInstructions).length
            ++ " characters]".toList)
        ++ truncationStub) ≤ 1 := by
    rw [hpat]
    refine le_trans (countOccur_le_count '[' "DIFF TRUNCATED".toList _) ?_
    have c1 : promptHeader.count '[' = 0 := by decide
    have c2 : ("\n\n".toList).count '[' = 0 := by decide
    have c3 : (diffMarker ++ ['\n']).count '[' = 0 := by decide
    have c4 : ((diff ++ promptInstructions).take
        (truncBudget maxLength
          (promptHeader ++ msg ++ "\n\n".toList).length).toNat).count '[' = 0 := by
      refine List.count_eq_zero.mpr ?_
      intro hmem
      rcases List.mem_append.mp (List.mem_of_mem_take hmem) with h | h
      · exact (List.count_eq_zero.mp hbd) h
      · have hi : promptInstructions.count '[' = 0 := by decide
        exact (List.count_eq_zero.mp hi) h
    have c5 : truncationNoticePrefix.count '[' = 1 := by decide
    have c6 : (encodeNat (diff ++ promptInstructions).length).count '[' = 0 :=
      count_eq_zero_of_all_digits _ (encodeNat_all_digits _)
    have c7 : (" characters]".toList).count '[' = 0 := by decide
    have c8 : truncationStub.count '[' = 0 := by decide
    simp only [List.count_append, c1, c2, c3, c4, c5, c6, c7, c8, hbm]
    omega
  have hlower : 1 ≤ countOccur "[DIFF TRUNCATED".toList
      ((promptHeader ++ msg ++ "\n\n".toList) ++ (diffMarker ++ ['\n'])
        ++ (diff ++ promptInstructions).take
            (truncBudget maxLength
              (promptHeader ++ msg ++ "\n\n".toList).length).toNat
        ++ (truncationNoticePrefix
            ++ encodeNat (diff ++ promptInstructions).length
            ++ " characters]".toList)
        ++ truncationStub) := by
    have hnp : truncationNoticePrefix = "\n\n".toList
        ++ "[DIFF TRUNCATED".toList ++ " - Original length: ".toList := by decide
    rw [hnp, hpat]
    rw [show ((promptHeader ++ msg ++ "\n\n".toList) ++ (diffMarker ++ ['\n'])
        ++ (diff ++ promptInstructions).take
            (truncBudget maxLength
              (promptHeader ++ msg ++ "\n\n".toList).length).toNat
        ++ (("\n\n".toList ++ ('[' :: "DIFF TRUNCATED".toList)
            ++ " - Original length: ".toList)
            ++ encodeNat (diff ++ promptInstructions).length
            ++ " characters]".toList)
        ++ truncationStub) =
      ((promptHeader ++ msg ++ "\n\n".toList) ++ (diffMarker ++ ['\n'])
        ++ (diff ++ promptInstructions).take
            (truncBudget maxLength
              (promptHeader ++ msg ++ "\n\n".toList).length).toNat
        ++ "\n\n".toList)
        ++ ('[' :: "DIFF TRUNCATED".toList)
        ++ (" - Original length: ".toList
            ++ encodeNat (diff ++ promptInstructions).length
            ++ " characters]".toList ++ truncationStub) by
      simp [List.append_assoc]]
    exact one_le_countOccur '[' "DIFF TRUNCATED".toList _ _
  omega

set_option maxRecDepth 8000 in
theorem buildPrompt_length (msg diff : List Char) :
    (buildPrompt msg diff).length = msg.length + diff.length + 653 := by
  have h1 : promptHeader.length = 71 := by decide
  have h2 : promptInstructions.length = 567 := by decide
  have h3 : ("\n\n".toList).length = 2 := by decide
  have h4 : diffMarker.length = 12 := by decide
  have h5 : ("\n".toList).length = 1 := by decide
  simp only [buildPrompt, List.length_append, h1, h2, h3, h4, h5]
  omega

/-- Claim C3, amended. When the built prompt exceeds the maximum prompt
length (the marker `"COMMIT DIFF:"` occurring first at its genuine position,
the cut landing inside the payload, the limit leaving room for the fixed
parts, and message and diff free of `'['`), `truncatePrompt` keeps the
pre-diff portion and the diff header unchanged, cuts the diff payload
together with the original trailing categorization instructions at the
computed budget, and appends the truncation notice (exactly one occurrence
of `"[DIFF TRUNCATED"` in the result) plus a shortened categorization
reminder; the result's length is at most the maximum. Contrary to the
original claim, the trailing instruction text is not preserved: it is cut
with the diff and replaced by the shortened stub. -/
theorem truncatePrompt_spec (maxLength : Nat) (msg diff : List Char)
    (hmark : ∀ k, k < (promptHeader ++ msg ++ "\n\n".toList).length →
      diffMarker.isPrefixOf ((buildPrompt msg diff).drop k) = false)
    (hlen : maxLength < (buildPrompt msg diff).length)
    (hcut : truncBudget maxLength (promptHeader ++ msg ++ "\n\n".toList).length <
      ((diff ++ promptInstructions).length : Int))
    (hover : (promptHeader ++ msg ++ "\n\n".toList).length + 13 + 500 + 1000 ≤
      maxLength)
    (hdig : (diff ++ promptInstructions).length < 10 ^ 15)
    (hbm : msg.count '[' = 0) (hbd : diff.count '[' = 0) :
    truncatePrompt maxLength (buildPrompt msg diff) =
      (promptHeader ++ msg ++ "\n\n".toList) ++ (diffMarker ++ ['\n'])
        ++ (diff ++ promptInstructions).take
            (truncBudget maxLength
              (promptHeader ++ msg ++ "\n\n".toList).length).toNat
        ++ (truncationNoticePrefix
            ++ encodeNat (diff ++ promptInstructions).length
            ++ " characters]".toList)
        ++ truncationStub
    ∧ (truncatePrompt maxLength (buildPrompt msg diff)).length ≤ maxLength
    ∧ countOccur "[DIFF TRUNCATED".toList
        (truncatePrompt maxLength (buildPrompt msg diff)) = 1 :=
  ⟨truncatePrompt_characterization maxLength msg diff hmark hlen hcut,
   truncatePrompt_length_le maxLength msg diff hmark hlen hcut hover hdig,
   truncatePrompt_notice_once maxLength msg diff hmark hlen hcut hbm hbd⟩

set_option maxRecDepth 8000 in
/-- Witness for C3: a 1500-character diff against a 2000-character limit is
truncated to at most 2000 characters with the truncation notice appearing
exactly once. -/
theorem truncatePrompt_spec_witness :
    (truncatePrompt 2000 (buildPrompt ['m'] (List.replicate 1500 'x'))).length
      ≤ 2000
    ∧ countOccur "[DIFF TRUNCATED".toList
        (truncatePrompt 2000 (buildPrompt ['m'] (List.replicate 1500 'x')))
      = 1 := by
  have hpre : (promptHeader ++ ['m'] ++ "\n\n".toList).length = 74 := by decide
  have hins : promptInstructions.length = 567 := by decide
  have htl : (List.replicate 1500 'x' ++ promptInstructions).length = 2067 := by
    rw [List.length_append, List.length_replicate, hins]
  have h := truncatePrompt_spec 2000 ['m'] (List.replicate 1500 'x')
    (by decide)
    (by rw [buildPrompt_length, List.length_replicate]; decide)
    (by rw [hpre, htl]; unfold truncBudget; omega)
    (by rw [hpre]; omega)
    (by rw [htl]; norm_num)
    (by decide)
    (by rw [List.count_replicate]; decide)
  exact ⟨h.2.1, h.2.2⟩

set_option maxRecDepth 8000 in
/-- Counterexample for C3 as stated: a 150000-character diff against the
default 100000-character limit produces a prompt over the limit whose
truncation does not preserve the trailing categorization instruction text —
the instructions are cut along with the diff and replaced by the shortened
reminder, so `promptInstructions` is not a suffix of the truncated
prompt. -/
theorem truncatePrompt_instructions_lost_counterexample :
    100000 < (buildPrompt ['m'] (List.replicate 150000 'x')).length
    ∧ ¬ (promptInstructions <:+
        truncatePrompt 100000 (buildPrompt ['m'] (List.replicate 150000 'x'))) := by
  have hins : promptInstructions.length = 567 := by decide
  have hpre : (promptHeader ++ ['m'] ++ "\n\n".toList).length = 74 := by decide
  have htl : (List.replicate 150000 'x' ++ promptInstructions).length
      = 150567 := by
    rw [List.length_append, List.length_replicate, hins]
  have hlen : 100000 < (buildPrompt ['m'] (List.replicate 150000 'x')).length := by
    rw [buildPrompt_length, List.length_replicate]; decide
  refine ⟨hlen, ?_⟩
  intro hsuf
  have hchar := truncatePrompt_characterization 100000 ['m']
    (List.replicate 150000 'x')
    (by decide) hlen
    (by rw [hpre, htl]; unfold truncBudget; omega)
  rw [hchar] at hsuf
  have hstub := List.suffix_append
    ((promptHeader ++ ['m'] ++ "\n\n".toList) ++ (diffMarker ++ ['\n'])
      ++ (List.replicate 150000 'x' ++ promptInstructions).take
          (truncBudget 100000
            (promptHeader ++ ['m'] ++ "\n\n".toList).length).toNat
      ++ (truncationNoticePrefix
          ++ encodeNat (List.replicate 150000 'x' ++ promptInstructions).length
          ++ " characters]".toList))
    truncationStub
  have hss : truncationStub <:+ promptInstructions :=
    List.suffix_of_suffix_length_le hstub hsuf (by decide)
  exact absurd hss (by decide)

end CommitAnalyzer
